import Mathlib

/-!
# Cached zone records service (`dnsimple/cached_records.go`)

A shallow embedding of the read-through cache in front of the paginated
`ListRecords` call, together with the part of the Go runtime that
`zoneCacheKey.String` relies on (`fmt.Sprintf("%#v", k)`).

Definitions come first, the theorems about them follow.
-/

namespace Dnsimple

/-! ## Go strings and the formatting used by `zoneCacheKey.String` -/

/-- A Go string is an immutable sequence of bytes (not necessarily valid UTF-8). -/
abbrev GoString := List (Fin 256)

/-- Go's conversion `byte(n)`: the low eight bits of `n`. -/
def byte (n : Nat) : Fin 256 := ⟨n % 256, Nat.mod_lt n (by decide)⟩

/-- `utf8.RuneError`, the replacement character U+FFFD. -/
def RuneError : Nat := 0xFFFD

/-- `utf8.RuneSelf`: bytes below it are single-byte runes. -/
def RuneSelf : Nat := 0x80

/-- `utf8.MaxRune`. -/
def MaxRune : Nat := 0x10FFFF

/-- The table `utf8.first`, indexed by the first byte of a sequence.
`0xF0` is `as` (ASCII), `0xF1` is `xx` (invalid); the other entries hold the
index of the accept range in the high nibble and the size in the low one
(`s1` .. `s7`). -/
def first (b : Nat) : Nat :=
  if b < 0x80 then 0xF0
  else if b < 0xC2 then 0xF1
  else if b < 0xE0 then 0x02
  else if b = 0xE0 then 0x13
  else if b < 0xED then 0x03
  else if b = 0xED then 0x23
  else if b < 0xF0 then 0x03
  else if b = 0xF0 then 0x34
  else if b < 0xF4 then 0x04
  else if b = 0xF4 then 0x44
  else 0xF1

/-- An entry of `utf8.acceptRanges`: the bounds of the second byte. -/
structure acceptRange where
  lo : Nat
  hi : Nat

/-- The table `utf8.acceptRanges` (entries past index 4 are zero in Go). -/
def acceptRanges (i : Nat) : acceptRange :=
  match i with
  | 0 => ⟨0x80, 0xBF⟩
  | 1 => ⟨0xA0, 0xBF⟩
  | 2 => ⟨0x80, 0x9F⟩
  | 3 => ⟨0x90, 0xBF⟩
  | 4 => ⟨0x80, 0x8F⟩
  | _ => ⟨0, 0⟩

/-- Go's `utf8.DecodeRuneInString`: the first rune of `s` and its width in
bytes; `(RuneError, 1)` for an invalid encoding, `(RuneError, 0)` for the
empty string.  Masks and shifts are written arithmetically: `b & 0x3F` is
`b % 64`, `x << 6` is `x * 64`, and `|` of values with disjoint bits is `+`. -/
def DecodeRuneInString (s : GoString) : Nat × Nat :=
  match s with
  | [] => (RuneError, 0)
  | s0 :: _ =>
    let n := s.length
    let x := first s0.val
    if x ≥ 0xF0 then
      (if x % 2 = 1 then RuneError else s0.val, 1)
    else
      let sz := x % 8
      let accept := acceptRanges (x / 16)
      if n < sz then (RuneError, 1)
      else
        let s1 := (s.getD 1 0).val
        if s1 < accept.lo ∨ accept.hi < s1 then (RuneError, 1)
        else if sz ≤ 2 then ((s0.val % 32) * 64 + s1 % 64, 2)
        else
          let s2 := (s.getD 2 0).val
          if s2 < 0x80 ∨ 0xBF < s2 then (RuneError, 1)
          else if sz ≤ 3 then ((s0.val % 16) * 4096 + (s1 % 64) * 64 + s2 % 64, 3)
          else
            let s3 := (s.getD 3 0).val
            if s3 < 0x80 ∨ 0xBF < s3 then (RuneError, 1)
            else ((s0.val % 8) * 262144 + (s1 % 64) * 4096 + (s2 % 64) * 64 + s3 % 64, 4)

/-- Go's `utf8.AppendRune` (on an empty buffer): the UTF-8 encoding of `r`. -/
def AppendRune (r : Nat) : GoString :=
  if r ≤ 0x7F then [byte r]
  else if r ≤ 0x7FF then [byte (0xC0 + r / 64), byte (0x80 + r % 64)]
  else if r > MaxRune ∨ (0xD800 ≤ r ∧ r ≤ 0xDFFF) then
    [byte (0xE0 + RuneError / 4096), byte (0x80 + RuneError / 64 % 64), byte (0x80 + RuneError % 64)]
  else if r ≤ 0xFFFF then
    [byte (0xE0 + r / 4096), byte (0x80 + r / 64 % 64), byte (0x80 + r % 64)]
  else
    [byte (0xF0 + r / 262144), byte (0x80 + r / 4096 % 64), byte (0x80 + r / 64 % 64),
      byte (0x80 + r % 64)]

/-- Go's `utf8.ValidRune`. -/
def ValidRune (r : Nat) : Bool :=
  if r < 0xD800 then true
  else if 0xDFFF < r ∧ r ≤ MaxRune then true
  else false

/-- The string `"0123456789abcdef"` of `strconv`, indexed by a nibble. -/
def lowerhex (n : Nat) : Fin 256 :=
  if n < 10 then byte (0x30 + n) else byte (0x57 + n)

/-- Go's `strconv.IsPrint`.  The Latin-1 range is decided in the function
itself; above it Go consults the Unicode tables `isPrint16`, `isNotPrint16`,
`isPrint32` and `isNotPrint32`, which are taken here as the parameter `tables`. -/
def IsPrint (tables : Nat → Bool) (r : Nat) : Bool :=
  if r ≤ 0xFF then
    if 0x20 ≤ r ∧ r ≤ 0x7E then true
    else if 0xA1 ≤ r ∧ r ≤ 0xFF then r != 0xAD
    else false
  else tables r

/-- The hexadecimal digits of `r` from bit `4 * k - 4` down to bit 0, as
written by the loops `for s := 12; s >= 0; s -= 4` and `for s := 28; ...`. -/
def hexDigits (r : Nat) : Nat → GoString
  | 0 => []
  | k + 1 => lowerhex (r / 16 ^ k % 16) :: hexDigits r k

/-- Go's `strconv.appendEscapedRune` as called by `AppendQuote`: the quote
is `"` (0x22), `ASCIIonly` and `graphicOnly` are false. -/
def appendEscapedRune (tables : Nat → Bool) (r : Nat) : GoString :=
  if r = 0x22 ∨ r = 0x5C then [0x5C, byte r]
  else if IsPrint tables r then AppendRune r
  else if r = 0x07 then [0x5C, 0x61]
  else if r = 0x08 then [0x5C, 0x62]
  else if r = 0x0C then [0x5C, 0x66]
  else if r = 0x0A then [0x5C, 0x6E]
  else if r = 0x0D then [0x5C, 0x72]
  else if r = 0x09 then [0x5C, 0x74]
  else if r = 0x0B then [0x5C, 0x76]
  else if r < 0x20 ∨ r = 0x7F then [0x5C, 0x78, lowerhex (r % 256 / 16), lowerhex (r % 256 % 16)]
  else if !ValidRune r then 0x5C :: 0x75 :: hexDigits RuneError 4
  else if r < 0x10000 then 0x5C :: 0x75 :: hexDigits r 4
  else 0x5C :: 0x55 :: hexDigits r 8

/-- One iteration of the loop of `strconv.appendQuotedWith` on the non-empty
remainder `s`: the bytes appended to the buffer and the width consumed. -/
def appendQuotedStep (tables : Nat → Bool) (s0 : Fin 256) (s : GoString) : GoString × Nat :=
  let rw : Nat × Nat := if s0.val ≥ RuneSelf then DecodeRuneInString s else (s0.val, 1)
  if rw.2 = 1 ∧ rw.1 = RuneError then
    ([0x5C, 0x78, lowerhex (s0.val / 16), lowerhex (s0.val % 16)], 1)
  else
    (appendEscapedRune tables rw.1, rw.2)

/-- The loop `for width := 0; len(s) > 0; s = s[width:]` of
`strconv.appendQuotedWith`.  The fuel bounds the number of iterations; every
iteration consumes at least one byte, so `s.length` is always enough. -/
def appendQuotedLoop (tables : Nat → Bool) : Nat → GoString → GoString
  | 0, _ => []
  | _, [] => []
  | fuel + 1, s0 :: t =>
    let step := appendQuotedStep tables s0 (s0 :: t)
    step.1 ++ appendQuotedLoop tables fuel ((s0 :: t).drop step.2)

/-- Go's `strconv.AppendQuote` on an empty buffer, i.e. `strconv.Quote`:
what `%#v` prints for a string. -/
def AppendQuote (tables : Nat → Bool) (s : GoString) : GoString :=
  0x22 :: appendQuotedLoop tables s.length s ++ [0x22]

/-- The bytes of a Lean string literal made of ASCII characters. -/
def ascii (s : String) : GoString := s.toList.map (fun c => byte c.toNat)

/-- The key of the cache: `zoneCacheKey`. -/
structure zoneCacheKey where
  accountID : GoString
  zoneName : GoString
deriving DecidableEq

/-- `zoneCacheKey.String`: `fmt.Sprintf("%#v", k)` with `k` a non-nil
`*zoneCacheKey`.  For a pointer to a struct at depth 0, `%#v` writes `&`,
the type name, and the fields as `name:value` separated by `, ` between
braces; a string value is written by `strconv.AppendQuote`. -/
def zoneCacheKey.String (tables : Nat → Bool) (k : zoneCacheKey) : GoString :=
  ascii "&dnsimple.zoneCacheKey\x7baccountID:" ++ AppendQuote tables k.accountID
    ++ ascii ", zoneName:" ++ AppendQuote tables k.zoneName ++ ascii "\x7d"

/-! ## Reading quoted output back -/

/-- The value of a lower-case hexadecimal digit. -/
def unhex (b : Fin 256) : Nat :=
  if b.val < 0x3A then b.val - 0x30 else b.val - 0x57

/-- The number written by a run of hexadecimal digits, after `acc`. -/
def unhexAll : Nat → GoString → Nat
  | acc, [] => acc
  | acc, b :: bs => unhexAll (acc * 16 + unhex b) bs

/-- The byte a two-character escape `\c` stands for. -/
def unescape (c : Fin 256) : Fin 256 :=
  if c.val = 0x61 then 0x07
  else if c.val = 0x62 then 0x08
  else if c.val = 0x66 then 0x0C
  else if c.val = 0x6E then 0x0A
  else if c.val = 0x72 then 0x0D
  else if c.val = 0x74 then 0x09
  else if c.val = 0x76 then 0x0B
  else c

/-- The length of a UTF-8 sequence, from its first byte. -/
def rawWidth (b : Nat) : Nat :=
  if b < 0x80 then 1 else if b < 0xE0 then 2 else if b < 0xF0 then 3 else 4

/-- Reads one escape sequence or one unescaped rune off the front of quoted
output: the bytes of the original string it stands for, and what follows. -/
def unquoteStep (out : GoString) : GoString × GoString :=
  match out with
  | [] => ([], [])
  | b :: rest =>
    if b.val = 0x5C then
      match rest with
      | [] => ([], [])
      | c :: rest1 =>
        if c.val = 0x78 then
          ([byte (unhexAll 0 (rest1.take 2))], rest1.drop 2)
        else if c.val = 0x75 then (AppendRune (unhexAll 0 (rest1.take 4)), rest1.drop 4)
        else if c.val = 0x55 then (AppendRune (unhexAll 0 (rest1.take 8)), rest1.drop 8)
        else ([unescape c], rest1)
    else
      (out.take (rawWidth b.val), out.drop (rawWidth b.val))

/-- What a decoded rune and width can be: the error marker of width one, or
a valid rune whose encoding is the front of the string. -/
def Decoded (s : GoString) (rw : Nat × Nat) : Prop :=
  (rw.2 = 1 ∧ rw.1 = RuneError) ∨
    (ValidRune rw.1 = true ∧ AppendRune rw.1 = s.take rw.2 ∧ 2 ≤ rw.2 ∧ rw.2 ≤ s.length ∧
      0x80 ≤ rw.1)

/-! ## The remote client -/

/-- A Go `error` value, identified by its message. -/
structure GoError where
  msg : String
deriving DecidableEq

/-- Go's `fmt.Errorf` applied to a format without verbs. -/
def Errorf (format : String) : GoError := ⟨format⟩

/-- The item `dnsimple.ZoneRecord`.  The service only ever reads `ID`; the
other attributes are carried along untouched. -/
structure ZoneRecord where
  ID : Int
  Name : GoString
  Content : GoString
deriving DecidableEq

/-- The pagination block `dnsimple.Pagination` of a list response.  Its
four fields are Go `int`s: nothing keeps the remote from reporting a
negative value. -/
structure Pagination where
  CurrentPage : Int
  PerPage : Int
  TotalPages : Int
  TotalEntries : Int
deriving DecidableEq

/-- The response `dnsimple.ZoneRecordsResponse` of one page fetch.  Its
`Pagination` is a pointer, `nil` (`none`) when the reply carries no
pagination member. -/
structure ZoneRecordsResponse where
  Pagination : Option Pagination
  Data : List ZoneRecord
deriving DecidableEq

/-- The response `dnsimple.ZoneRecordResponse` of a write. -/
structure ZoneRecordResponse where
  Data : Option ZoneRecord
deriving DecidableEq

/-- The payload `dnsimple.ZoneRecordAttributes` of a create or an update. -/
structure ZoneRecordAttributes where
  Name : GoString
  Content : GoString
deriving DecidableEq

/-- The paging part `dnsimple.ListOptions`; a `nil` pointer is `none`. -/
structure ListOptions where
  Page : Option Nat
  PerPage : Option Nat
deriving DecidableEq

/-- The options `dnsimple.ZoneRecordListOptions` of a page fetch. -/
structure ZoneRecordListOptions where
  ListOptions : ListOptions
deriving DecidableEq

/-- The remote operations `client.Zones.*` the service consumes.  The
collaborator is an arbitrary deterministic machine over its own state `σ`:
every call returns a result or an error, and the next state. -/
structure ZonesService (σ : Type) where
  ListRecords : σ → GoString → GoString → ZoneRecordListOptions →
    Except GoError ZoneRecordsResponse × σ
  CreateRecord : σ → GoString → GoString → ZoneRecordAttributes →
    Except GoError ZoneRecordResponse × σ
  UpdateRecord : σ → GoString → GoString → Int → ZoneRecordAttributes →
    Except GoError ZoneRecordResponse × σ
  DeleteRecord : σ → GoString → GoString → Int →
    Except GoError ZoneRecordResponse × σ

/-- The client `dnsimple.Client`. -/
structure Client (σ : Type) where
  Zones : ZonesService σ

/-! ## The cached service -/

/-- The page size: `var perPage = 100`. -/
def perPage : Nat := 100

/-- One call of `ListRecords` as the remote sees it. -/
structure ListRecordsCall where
  accountID : GoString
  zoneName : GoString
  options : ZoneRecordListOptions
deriving DecidableEq

/-- The `sync.Map` of the service: snapshots by key. -/
abbrev Cache := zoneCacheKey → Option (List ZoneRecord)

/-- The lookup `sync.Map.Load`. -/
def Cache.Load (m : Cache) (key : zoneCacheKey) : Option (List ZoneRecord) := m key

/-- The update `sync.Map.Store`. -/
def Cache.Store (m : Cache) (key : zoneCacheKey) (v : List ZoneRecord) : Cache :=
  fun k => if k = key then some v else m k

/-- The removal `sync.Map.Delete`. -/
def Cache.Delete (m : Cache) (key : zoneCacheKey) : Cache :=
  fun k => if k = key then none else m k

/-- The service `cachedRecordsService`, run by one caller at a time.
`remote` is the current state of the collaborator behind `client`, and
`fetches` records the `ListRecords` calls made so far, oldest first.  The
`singleflight.Group` holds no registration between two sequential calls and
has no field here. -/
structure cachedRecordsService (σ : Type) where
  client : Client σ
  cache : Cache
  remote : σ
  fetches : List ListRecordsCall

/-- The constructor `newCachedRecordsService`, on a remote in state `remote`. -/
def newCachedRecordsService {σ : Type} (client : Client σ) (remote : σ) :
    cachedRecordsService σ :=
  ⟨client, fun _ => none, remote, []⟩

/-- The call `singleflight.Group.Do` with a single caller: `fn` is run and
its result returned. -/
def Do {α β : Type} (_key : GoString) (fn : α → β) : α → β := fn

/-- The call `singleflight.Group.Forget` with a single caller: there is no
registration to drop. -/
def Forget {σ : Type} (s : cachedRecordsService σ) (_key : GoString) :
    cachedRecordsService σ := s

/-- How a call ends: it returns `r`, it panics, or it is still running when
the fuel of the model is used up. -/
inductive Run (α : Type) where
  | returned (r : α)
  | panicked
  | running

/-- Go's `make([]dnsimple.ZoneRecord, 0, n)`: the empty slice with capacity
`n`, or a panic (`none`) when `n` is negative or larger than `maxCap`, the
largest capacity the runtime allocates for this element type (it depends on
the platform and is a parameter). -/
def make (maxCap : Nat) (n : Int) : Option (List ZoneRecord) :=
  if 0 ≤ n ∧ n ≤ (maxCap : Int) then some [] else none

/-- The statement `if records == nil { records = make(..., 0, totalEntries) }`
of `getAllRecords`; `none` on the left is the nil slice, `none` on the right
is the panic of `make`. -/
def getAllRecords_alloc (maxCap : Nat) (records : Option (List ZoneRecord))
    (totalEntries : Int) : Option (List ZoneRecord) :=
  match records with
  | none => make maxCap totalEntries
  | some l => some l

/-- The `for page := 1; ; page++` loop of `getAllRecords`, entered with the
current `page` and the slice `records` (`none` while it is nil).  `fuel`
bounds the number of iterations.  A response without pagination makes the
body panic when it dereferences `resp.Pagination` (before `make`, or at the
stop test); the local slice is lost either way. -/
def getAllRecords_loop {σ : Type} (maxCap : Nat) (key : zoneCacheKey) :
    Nat → Nat → Option (List ZoneRecord) → cachedRecordsService σ →
      Run (Except GoError (List ZoneRecord)) × cachedRecordsService σ
  | 0, _, _, s => (.running, s)
  | fuel + 1, page, records, s =>
    let options : ZoneRecordListOptions := ⟨⟨some page, some perPage⟩⟩
    let reply := s.client.Zones.ListRecords s.remote key.accountID key.zoneName options
    let s1 : cachedRecordsService σ :=
      ⟨s.client, s.cache, reply.2, s.fetches ++ [⟨key.accountID, key.zoneName, options⟩]⟩
    match reply.1 with
    | .error err => (.returned (.error err), s1)
    | .ok resp =>
      match resp.Pagination with
      | none => (.panicked, s1)
      | some pagination =>
        match getAllRecords_alloc maxCap records pagination.TotalEntries with
        | none => (.panicked, s1)
        | some allocated =>
          let records := allocated ++ resp.Data
          if pagination.CurrentPage ≥ pagination.TotalPages then
            (.returned (.ok records), s1)
          else
            getAllRecords_loop maxCap key fuel (page + 1) (some records) s1

/-- The method `getAllRecords`: the cached snapshot if there is one,
otherwise all pages fetched in turn and stored. -/
def getAllRecords {σ : Type} (maxCap fuel : Nat) (s : cachedRecordsService σ)
    (key : zoneCacheKey) :
    Run (Except GoError (List ZoneRecord)) × cachedRecordsService σ :=
  match s.cache.Load key with
  | some v => (.returned (.ok v), s)
  | none =>
    match getAllRecords_loop maxCap key fuel 1 none s with
    | (.returned (.ok records), s1) =>
      (.returned (.ok records), ⟨s1.client, s1.cache.Store key records, s1.remote, s1.fetches⟩)
    | (.returned (.error err), s1) => (.returned (.error err), s1)
    | (.panicked, s1) => (.panicked, s1)
    | (.running, s1) => (.running, s1)

/-- The `for _, record := range records` scan of `GetRecord`, with the
`fmt.Errorf("404")` that follows it. -/
def GetRecord_scan (recordID : Int) : List ZoneRecord → Except GoError ZoneRecord
  | [] => .error (Errorf "404")
  | record :: rest =>
    if record.ID = recordID then .ok record else GetRecord_scan recordID rest

/-- The method `GetRecord`. -/
def GetRecord {σ : Type} (tables : Nat → Bool) (maxCap fuel : Nat)
    (s : cachedRecordsService σ) (accountID zoneName : GoString) (recordID : Int) :
    Run (Except GoError ZoneRecord) × cachedRecordsService σ :=
  let key : zoneCacheKey := ⟨accountID, zoneName⟩
  match Do (key.String tables) (fun s0 => getAllRecords maxCap fuel s0 key) s with
  | (.returned (.ok records), s1) => (.returned (GetRecord_scan recordID records), s1)
  | (.returned (.error err), s1) => (.returned (.error err), s1)
  | (.panicked, s1) => (.panicked, s1)
  | (.running, s1) => (.running, s1)

/-- The method `clearRecordsCache`. -/
def clearRecordsCache {σ : Type} (tables : Nat → Bool) (s : cachedRecordsService σ)
    (key : zoneCacheKey) : cachedRecordsService σ :=
  let s1 := Forget s (key.String tables)
  ⟨s1.client, s1.cache.Delete key, s1.remote, s1.fetches⟩

/-- The method `CreateRecord`. -/
def CreateRecord {σ : Type} (tables : Nat → Bool) (s : cachedRecordsService σ)
    (accountID zoneName : GoString) (recordAttributes : ZoneRecordAttributes) :
    Except GoError ZoneRecordResponse × cachedRecordsService σ :=
  let s1 := clearRecordsCache tables s ⟨accountID, zoneName⟩
  let r := s1.client.Zones.CreateRecord s1.remote accountID zoneName recordAttributes
  (r.1, ⟨s1.client, s1.cache, r.2, s1.fetches⟩)

/-- The method `UpdateRecord`. -/
def UpdateRecord {σ : Type} (tables : Nat → Bool) (s : cachedRecordsService σ)
    (accountID zoneName : GoString) (recordID : Int) (recordAttributes : ZoneRecordAttributes) :
    Except GoError ZoneRecordResponse × cachedRecordsService σ :=
  let s1 := clearRecordsCache tables s ⟨accountID, zoneName⟩
  let r := s1.client.Zones.UpdateRecord s1.remote accountID zoneName recordID recordAttributes
  (r.1, ⟨s1.client, s1.cache, r.2, s1.fetches⟩)

/-- The method `DeleteRecord`. -/
def DeleteRecord {σ : Type} (tables : Nat → Bool) (s : cachedRecordsService σ)
    (accountID zoneName : GoString) (recordID : Int) :
    Except GoError ZoneRecordResponse × cachedRecordsService σ :=
  let s1 := clearRecordsCache tables s ⟨accountID, zoneName⟩
  let r := s1.client.Zones.DeleteRecord s1.remote accountID zoneName recordID
  (r.1, ⟨s1.client, s1.cache, r.2, s1.fetches⟩)

/-! ## Vocabulary of the statements -/

/-- The page fetch number `page` for `key`, as `getAllRecords` issues it. -/
def pageCall (key : zoneCacheKey) (page : Nat) : ListRecordsCall :=
  ⟨key.accountID, key.zoneName, ⟨⟨some page, some 100⟩⟩⟩

/-- The page fetches for pages `1, 2, ..., n` of `key`, in that order. -/
def pageCalls (key : zoneCacheKey) (n : Nat) : List ListRecordsCall :=
  (List.range n).map (fun i => pageCall key (i + 1))

/-- The remote in state `r`, asked for the consecutive pages of `key`
starting at `page`, answers with exactly the successful responses `rs`, in
order, and is left in state `r1`. -/
def Serves {σ : Type} (zones : ZonesService σ) (key : zoneCacheKey) :
    σ → Nat → List ZoneRecordsResponse → σ → Prop
  | r, _, [], r1 => r = r1
  | r, page, resp :: rs, r1 =>
    (zones.ListRecords r key.accountID key.zoneName ⟨⟨some page, some 100⟩⟩).1 = .ok resp ∧
    Serves zones key
      (zones.ListRecords r key.accountID key.zoneName ⟨⟨some page, some 100⟩⟩).2
      (page + 1) rs r1

/-- The response carries a pagination block that passes the stop test of
the loop: `CurrentPage >= TotalPages`. -/
def lastPage (resp : ZoneRecordsResponse) : Prop :=
  match resp.Pagination with
  | some pagination => pagination.CurrentPage ≥ pagination.TotalPages
  | none => False

/-- The response carries a pagination block that does not pass the stop
test: `CurrentPage < TotalPages`. -/
def morePages (resp : ZoneRecordsResponse) : Prop :=
  match resp.Pagination with
  | some pagination => pagination.CurrentPage < pagination.TotalPages
  | none => False

/-- The response carries a pagination block whose `TotalEntries` is a
capacity that `make` accepts: not negative and at most `maxCap`. -/
def allocatable (maxCap : Nat) (resp : ZoneRecordsResponse) : Prop :=
  match resp.Pagination with
  | some pagination => 0 ≤ pagination.TotalEntries ∧ pagination.TotalEntries ≤ (maxCap : Int)
  | none => False

/-- The items of a series of responses, page after page. -/
def allItems (rs : List ZoneRecordsResponse) : List ZoneRecord :=
  (rs.map (fun resp => resp.Data)).flatten

/-- A run of consecutive `GetRecord` calls for one key, one per requested id:
the answers in order and the final state. -/
def GetRecord_seq {σ : Type} (tables : Nat → Bool) (maxCap fuel : Nat)
    (accountID zoneName : GoString) :
    cachedRecordsService σ → List Int →
      List (Run (Except GoError ZoneRecord)) × cachedRecordsService σ
  | s, [] => ([], s)
  | s, recordID :: ids =>
    let r := GetRecord tables maxCap fuel s accountID zoneName recordID
    let rest := GetRecord_seq tables maxCap fuel accountID zoneName r.2 ids
    (r.1 :: rest.1, rest.2)

/-- The page fetches for `n` consecutive pages of `key` starting at `page`. -/
def pageCallsFrom (key : zoneCacheKey) : Nat → Nat → List ListRecordsCall
  | _, 0 => []
  | page, n + 1 => pageCall key page :: pageCallsFrom key (page + 1) n

/-- The service after one more page fetch that left the remote in `r`. -/
def fetched {σ : Type} (s : cachedRecordsService σ) (key : zoneCacheKey) (page : Nat) (r : σ) :
    cachedRecordsService σ :=
  ⟨s.client, s.cache, r, s.fetches ++ [pageCall key page]⟩

/-! ## Concrete remotes used to instantiate the statements -/

/-- A runtime that allocates slices of up to `2 ^ 40` records. -/
def mockMaxCap : Nat := 2 ^ 40

/-- The records with ids `start, start + 1, ..., start + n - 1`. -/
def mockRecords (start n : Nat) : List ZoneRecord :=
  (List.range n).map (fun i => ⟨((start + i : Nat) : Int), [], []⟩)

/-- A zone of 237 records served in pages of 100: sizes 100, 100 and 37. -/
def mockPage (page : Nat) : ZoneRecordsResponse :=
  if page = 1 then ⟨some ⟨1, 100, 3, 237⟩, mockRecords 1 100⟩
  else if page = 2 then ⟨some ⟨2, 100, 3, 237⟩, mockRecords 101 100⟩
  else ⟨some ⟨3, 100, 3, 237⟩, mockRecords 201 37⟩

/-- A remote without state that answers a page fetch with `respond page`
and refuses every write. -/
def mockZones (respond : Nat → Except GoError ZoneRecordsResponse) : ZonesService Unit where
  ListRecords := fun r _ _ options => (respond (options.ListOptions.Page.getD 1), r)
  CreateRecord := fun r _ _ _ => (.error (Errorf "read only"), r)
  UpdateRecord := fun r _ _ _ _ => (.error (Errorf "read only"), r)
  DeleteRecord := fun r _ _ _ => (.error (Errorf "read only"), r)

/-- A fresh service in front of the remote `mockZones respond`. -/
def mockService (respond : Nat → Except GoError ZoneRecordsResponse) :
    cachedRecordsService Unit :=
  newCachedRecordsService ⟨mockZones respond⟩ ()

/-- The key used with the concrete remotes: account `1`, zone `a.io`. -/
def mockKey : zoneCacheKey := ⟨ascii "1", ascii "a.io"⟩

/-- A remote whose second page fails. -/
def failingPage (page : Nat) : Except GoError ZoneRecordsResponse :=
  if page = 2 then .error (Errorf "503") else .ok (mockPage page)

/-- A remote whose first page reports `current_page = 0` of `total_pages = 1`
and whose later pages report `current_page = 1`. -/
def lagPage (page : Nat) : ZoneRecordsResponse :=
  if page = 1 then ⟨some ⟨0, 100, 1, 2⟩, mockRecords 1 1⟩
  else ⟨some ⟨1, 100, 1, 2⟩, mockRecords 2 1⟩

/-- A single page of one record that reports `total_entries = -1`. -/
def negativeCountPage : ZoneRecordsResponse := ⟨some ⟨1, 100, 1, -1⟩, mockRecords 1 1⟩

/-- A single page of one record that reports `total_entries = 2 ^ 60`. -/
def hugeCountPage : ZoneRecordsResponse := ⟨some ⟨1, 100, 1, 2 ^ 60⟩, mockRecords 1 1⟩

/-- A remote whose first page of three reports `total_entries = -1` and
whose second page fails. -/
def negativeThenFailing (page : Nat) : Except GoError ZoneRecordsResponse :=
  if page = 1 then .ok ⟨some ⟨1, 100, 3, -1⟩, mockRecords 1 100⟩
  else .error (Errorf "503")

/-- A remote whose first page comes without a pagination block and whose
second page reports `current_page = 2` of `total_pages = 2`. -/
def bareThenLast (page : Nat) : ZoneRecordsResponse :=
  if page = 1 then ⟨none, mockRecords 1 1⟩ else ⟨some ⟨2, 100, 2, 2⟩, mockRecords 2 1⟩

/-- A remote whose first page comes without a pagination block and whose
second page fails. -/
def bareThenFailing (page : Nat) : Except GoError ZoneRecordsResponse :=
  if page = 1 then .ok ⟨none, mockRecords 1 1⟩ else .error (Errorf "503")

/-- A zone without records: one page, no items. -/
def emptyPage : ZoneRecordsResponse := ⟨some ⟨1, 100, 0, 0⟩, []⟩

/-- A service whose cache holds a two-record snapshot for `mockKey`. -/
def warmService : cachedRecordsService Unit :=
  ⟨⟨mockZones (fun page => .ok (mockPage page))⟩,
    Cache.Store (fun _ => none) mockKey (mockRecords 7 2), (), []⟩

/-! ## The key token -/

theorem byte_val (n : Nat) : (byte n).val = n % 256 := rfl

theorem byte_of_val (b : Fin 256) : byte b.val = b := by
  apply Fin.ext
  rw [byte_val]
  exact Nat.mod_eq_of_lt b.isLt

theorem unhex_lowerhex (d : Nat) (h : d < 16) : unhex (lowerhex d) = d := by
  unfold unhex lowerhex
  split_ifs with h1 h2 h3 <;> simp only [byte_val] at * <;> omega

theorem length_hexDigits (r : Nat) : ∀ k, (hexDigits r k).length = k := by
  intro k
  induction k with
  | zero => rfl
  | succ k ih => simp [hexDigits, ih]

theorem unhexAll_hexDigits (r : Nat) :
    ∀ k acc, unhexAll acc (hexDigits r k) = acc * 16 ^ k + r % 16 ^ k := by
  intro k
  induction k with
  | zero => intro acc; simp [hexDigits, unhexAll, Nat.mod_one]
  | succ k ih =>
    intro acc
    rw [hexDigits, unhexAll, ih, unhex_lowerhex _ (Nat.mod_lt _ (by decide)), Nat.mod_pow_succ]
    ring

theorem appendRune_one (a : Fin 256) (ha : a.val < 0x80) :
    AppendRune a.val = [a] := by
  unfold AppendRune
  rw [if_pos (by omega), byte_of_val]

theorem appendRune_two (a b : Fin 256) (ha : 0xC2 ≤ a.val ∧ a.val < 0xE0)
    (hb : 0x80 ≤ b.val ∧ b.val ≤ 0xBF) :
    AppendRune (a.val % 32 * 64 + b.val % 64) = [a, b] ∧
      ValidRune (a.val % 32 * 64 + b.val % 64) = true ∧
      0x80 ≤ a.val % 32 * 64 + b.val % 64 := by
  obtain ⟨r, hr⟩ : ∃ r, r = a.val % 32 * 64 + b.val % 64 := ⟨_, rfl⟩
  rw [← hr]
  have h1 : ¬ r ≤ 0x7F := by omega
  have h2 : r ≤ 0x7FF := by omega
  refine ⟨?_, ?_, by omega⟩
  · unfold AppendRune
    rw [if_neg h1, if_pos h2]
    congr 1
    · apply Fin.ext; rw [byte_val]; omega
    · congr 1; apply Fin.ext; rw [byte_val]; omega
  · unfold ValidRune
    rw [if_pos (by omega)]

theorem appendRune_three (a b c : Fin 256) (ha : 0xE0 ≤ a.val ∧ a.val < 0xF0)
    (hb : 0x80 ≤ b.val ∧ b.val ≤ 0xBF) (hlo : a.val = 0xE0 → 0xA0 ≤ b.val)
    (hhi : a.val = 0xED → b.val ≤ 0x9F) (hc : 0x80 ≤ c.val ∧ c.val ≤ 0xBF) :
    AppendRune (a.val % 16 * 4096 + b.val % 64 * 64 + c.val % 64) = [a, b, c] ∧
      ValidRune (a.val % 16 * 4096 + b.val % 64 * 64 + c.val % 64) = true ∧
      0x80 ≤ a.val % 16 * 4096 + b.val % 64 * 64 + c.val % 64 := by
  obtain ⟨r, hr⟩ : ∃ r, r = a.val % 16 * 4096 + b.val % 64 * 64 + c.val % 64 := ⟨_, rfl⟩
  rw [← hr]
  have h1 : ¬ r ≤ 0x7F := by omega
  have h2 : ¬ r ≤ 0x7FF := by omega
  have h3 : ¬ (r > MaxRune ∨ (0xD800 ≤ r ∧ r ≤ 0xDFFF)) := by unfold MaxRune; omega
  have h4 : r ≤ 0xFFFF := by omega
  refine ⟨?_, ?_, by omega⟩
  · unfold AppendRune
    rw [if_neg h1, if_neg h2, if_neg h3, if_pos h4]
    congr 1
    · apply Fin.ext; rw [byte_val]; omega
    · congr 1
      · apply Fin.ext; rw [byte_val]; omega
      · congr 1; apply Fin.ext; rw [byte_val]; omega
  · unfold ValidRune MaxRune
    by_cases h5 : r < 0xD800
    · rw [if_pos h5]
    · rw [if_neg h5, if_pos (by omega)]

theorem appendRune_four (a b c d : Fin 256) (ha : 0xF0 ≤ a.val ∧ a.val ≤ 0xF4)
    (hb : 0x80 ≤ b.val ∧ b.val ≤ 0xBF) (hlo : a.val = 0xF0 → 0x90 ≤ b.val)
    (hhi : a.val = 0xF4 → b.val ≤ 0x8F) (hc : 0x80 ≤ c.val ∧ c.val ≤ 0xBF)
    (hd : 0x80 ≤ d.val ∧ d.val ≤ 0xBF) :
    AppendRune (a.val % 8 * 262144 + b.val % 64 * 4096 + c.val % 64 * 64 + d.val % 64)
        = [a, b, c, d] ∧
      ValidRune (a.val % 8 * 262144 + b.val % 64 * 4096 + c.val % 64 * 64 + d.val % 64)
        = true ∧
      0x80 ≤ a.val % 8 * 262144 + b.val % 64 * 4096 + c.val % 64 * 64 + d.val % 64 := by
  obtain ⟨r, hr⟩ : ∃ r, r = a.val % 8 * 262144 + b.val % 64 * 4096 + c.val % 64 * 64
      + d.val % 64 := ⟨_, rfl⟩
  rw [← hr]
  have h1 : ¬ r ≤ 0x7F := by omega
  have h2 : ¬ r ≤ 0x7FF := by omega
  have h3 : ¬ (r > MaxRune ∨ (0xD800 ≤ r ∧ r ≤ 0xDFFF)) := by unfold MaxRune; omega
  have h4 : ¬ r ≤ 0xFFFF := by omega
  refine ⟨?_, ?_, by omega⟩
  · unfold AppendRune
    rw [if_neg h1, if_neg h2, if_neg h3, if_neg h4]
    congr 1
    · apply Fin.ext; rw [byte_val]; omega
    · congr 1
      · apply Fin.ext; rw [byte_val]; omega
      · congr 1
        · apply Fin.ext; rw [byte_val]; omega
        · congr 1; apply Fin.ext; rw [byte_val]; omega
  · unfold ValidRune MaxRune
    rw [if_neg (by omega), if_pos (by omega)]

theorem first_invalid (b : Nat) (h : (0x80 ≤ b ∧ b < 0xC2) ∨ 0xF5 ≤ b) : first b = 0xF1 := by
  unfold first
  split_ifs <;> first | rfl | omega

theorem first_s1 (b : Nat) (h : 0xC2 ≤ b ∧ b < 0xE0) : first b = 0x02 := by
  unfold first
  split_ifs <;> first | rfl | omega

theorem first_s3 (b : Nat) (h : (0xE1 ≤ b ∧ b < 0xED) ∨ b = 0xEE ∨ b = 0xEF) :
    first b = 0x03 := by
  unfold first
  split_ifs <;> first | rfl | omega

theorem first_s6 (b : Nat) (h : 0xF1 ≤ b ∧ b < 0xF4) : first b = 0x04 := by
  unfold first
  split_ifs <;> first | rfl | omega

theorem decoded_error (s : GoString) : Decoded s (RuneError, 1) := Or.inl ⟨rfl, rfl⟩

theorem decode_two (s0 : Fin 256) (t : GoString) (h0 : 0xC2 ≤ s0.val ∧ s0.val < 0xE0) :
    Decoded (s0 :: t) (DecodeRuneInString (s0 :: t)) := by
  unfold DecodeRuneInString
  simp only [first_s1 _ h0]
  norm_num [acceptRanges]
  rcases t with _ | ⟨s1, t⟩
  · exact decoded_error _
  · simp only [List.length_cons, List.getElem?_cons_zero, Option.getD_some]
    rw [if_neg (by omega)]
    split_ifs with h1
    · exact decoded_error _
    · obtain ⟨ha, hv, hr⟩ := appendRune_two s0 s1 h0 (by omega)
      exact Or.inr ⟨hv, by rw [ha]; rfl, le_refl _, by simp, hr⟩

theorem decode_three (s0 : Fin 256) (t : GoString) (lo hi : Nat)
    (h0 : 0xE0 ≤ s0.val ∧ s0.val < 0xF0)
    (hf : first s0.val % 8 = 3 ∧ ¬ first s0.val ≥ 0xF0 ∧
      acceptRanges (first s0.val / 16) = ⟨lo, hi⟩)
    (hlo : 0x80 ≤ lo ∧ (s0.val = 0xE0 → 0xA0 ≤ lo)) (hhi : hi ≤ 0xBF ∧ (s0.val = 0xED → hi ≤ 0x9F)) :
    Decoded (s0 :: t) (DecodeRuneInString (s0 :: t)) := by
  unfold DecodeRuneInString
  simp only [hf.1, hf.2.1, hf.2.2, if_false]
  norm_num
  rcases t with _ | ⟨s1, _ | ⟨s2, t⟩⟩
  · exact decoded_error _
  · simp only [List.length_cons, List.length_nil]
    rw [if_pos (by omega)]
    exact decoded_error _
  · simp only [List.length_cons, List.getElem?_cons_zero, List.getElem?_cons_succ,
      Option.getD_some]
    rw [if_neg (by omega)]
    split_ifs with h1 h2
    · exact decoded_error _
    · exact decoded_error _
    · obtain ⟨ha, hv, hr⟩ := appendRune_three s0 s1 s2 h0 (by omega) (by omega) (by omega)
        (by omega)
      exact Or.inr ⟨hv, by rw [ha]; rfl, by omega, by simp, hr⟩

theorem decode_four (s0 : Fin 256) (t : GoString) (lo hi : Nat)
    (h0 : 0xF0 ≤ s0.val ∧ s0.val ≤ 0xF4)
    (hf : first s0.val % 8 = 4 ∧ ¬ first s0.val ≥ 0xF0 ∧
      acceptRanges (first s0.val / 16) = ⟨lo, hi⟩)
    (hlo : 0x80 ≤ lo ∧ (s0.val = 0xF0 → 0x90 ≤ lo)) (hhi : hi ≤ 0xBF ∧ (s0.val = 0xF4 → hi ≤ 0x8F)) :
    Decoded (s0 :: t) (DecodeRuneInString (s0 :: t)) := by
  unfold DecodeRuneInString
  simp only [hf.1, hf.2.1, hf.2.2, if_false]
  norm_num
  rcases t with _ | ⟨s1, _ | ⟨s2, _ | ⟨s3, t⟩⟩⟩
  · exact decoded_error _
  · simp only [List.length_cons, List.length_nil]
    rw [if_pos (by omega)]
    exact decoded_error _
  · simp only [List.length_cons, List.length_nil]
    rw [if_pos (by omega)]
    exact decoded_error _
  · simp only [List.length_cons, List.getElem?_cons_zero, List.getElem?_cons_succ,
      Option.getD_some]
    rw [if_neg (by omega)]
    split_ifs with h1 h2 h3
    · exact decoded_error _
    · exact decoded_error _
    · exact decoded_error _
    · obtain ⟨ha, hv, hr⟩ := appendRune_four s0 s1 s2 s3 h0 (by omega) (by omega) (by omega)
        (by omega) (by omega)
      exact Or.inr ⟨hv, by rw [ha]; rfl, by omega, by simp, hr⟩

theorem decode_invalid (s0 : Fin 256) (t : GoString)
    (h0 : (0x80 ≤ s0.val ∧ s0.val < 0xC2) ∨ 0xF5 ≤ s0.val) :
    DecodeRuneInString (s0 :: t) = (RuneError, 1) := by
  unfold DecodeRuneInString
  simp only [first_invalid _ h0]
  norm_num

/-- The decoder returns the error marker of width one, or a valid rune at
least `0x80` together with the width of its encoding, which is the front of
the string. -/
theorem decode_spec (s0 : Fin 256) (t : GoString) (h : 0x80 ≤ s0.val) :
    Decoded (s0 :: t) (DecodeRuneInString (s0 :: t)) := by
  have hb := s0.isLt
  by_cases c1 : s0.val < 0xC2 ∨ 0xF5 ≤ s0.val
  · rw [decode_invalid s0 t (by omega)]
    exact decoded_error _
  by_cases c2 : s0.val < 0xE0
  · exact decode_two s0 t (by omega)
  by_cases c3 : s0.val < 0xF0
  · by_cases c4 : s0.val = 0xE0
    · exact decode_three s0 t 0xA0 0xBF (by omega)
        (by rw [c4]; exact ⟨by decide, by decide, rfl⟩) (by omega) (by omega)
    · by_cases c5 : s0.val = 0xED
      · exact decode_three s0 t 0x80 0x9F (by omega)
          (by rw [c5]; exact ⟨by decide, by decide, rfl⟩) (by omega) (by omega)
      · have hf := first_s3 s0.val (by omega)
        exact decode_three s0 t 0x80 0xBF (by omega)
          (by rw [hf]; exact ⟨by decide, by decide, rfl⟩) (by omega) (by omega)
  · by_cases c4 : s0.val = 0xF0
    · exact decode_four s0 t 0x90 0xBF (by omega)
        (by rw [c4]; exact ⟨by decide, by decide, rfl⟩) (by omega) (by omega)
    · by_cases c5 : s0.val = 0xF4
      · exact decode_four s0 t 0x80 0x8F (by omega)
          (by rw [c5]; exact ⟨by decide, by decide, rfl⟩) (by omega) (by omega)
      · have hf := first_s6 s0.val (by omega)
        exact decode_four s0 t 0x80 0xBF (by omega)
          (by rw [hf]; exact ⟨by decide, by decide, rfl⟩) (by omega) (by omega)

/-- The encoding of a rune is never empty, its length can be read off its
first byte, and that byte is a quote or a backslash only for these runes. -/
theorem appendRune_shape (r : Nat) :
    ∃ b bs, AppendRune r = b :: bs ∧ rawWidth b.val = bs.length + 1 ∧
      (r ≠ 0x5C → b.val ≠ 0x5C) ∧ (r ≠ 0x22 → b.val ≠ 0x22) := by
  unfold AppendRune
  split_ifs with h1 h2 h3 h4
  · refine ⟨_, _, rfl, ?_, ?_, ?_⟩ <;> simp only [byte_val, rawWidth, List.length_nil] <;>
      first | omega | (split_ifs <;> omega)
  · refine ⟨_, _, rfl, ?_, ?_, ?_⟩ <;>
      simp only [byte_val, rawWidth, List.length_cons, List.length_nil] <;>
      first | omega | (split_ifs <;> omega)
  · exact ⟨byte (0xE0 + RuneError / 4096), _, rfl, by decide, fun _ => by decide,
      fun _ => by decide⟩
  · refine ⟨_, _, rfl, ?_, ?_, ?_⟩ <;>
      simp only [byte_val, rawWidth, List.length_cons, List.length_nil] <;>
      first | omega | (split_ifs <;> omega)
  · have h5 : r ≤ 0x10FFFF := by unfold MaxRune at h3; omega
    refine ⟨_, _, rfl, ?_, ?_, ?_⟩ <;>
      simp only [byte_val, rawWidth, List.length_cons, List.length_nil] <;>
      first | omega | (split_ifs <;> omega)

theorem unquoteStep_raw (b : Fin 256) (bs rest : GoString) (hb : b.val ≠ 0x5C)
    (hw : rawWidth b.val = bs.length + 1) :
    unquoteStep (b :: bs ++ rest) = (b :: bs, rest) := by
  have hlen : (b :: bs).length = rawWidth b.val := by rw [hw]; rfl
  show unquoteStep (b :: (bs ++ rest)) = _
  unfold unquoteStep
  simp only [hb, if_false]
  rw [← List.cons_append, List.take_left' hlen, List.drop_left' hlen]

theorem unquoteStep_x (h1 h2 : Fin 256) (rest : GoString) :
    unquoteStep (0x5C :: 0x78 :: h1 :: h2 :: rest) =
      ([byte (unhex h1 * 16 + unhex h2)], rest) := by
  unfold unquoteStep
  simp [unhexAll, Fin.coe_ofNat_eq_mod]

theorem unquoteStep_u (r : Nat) (rest : GoString) (h : r < 0x10000) :
    unquoteStep (0x5C :: 0x75 :: (hexDigits r 4 ++ rest)) = (AppendRune r, rest) := by
  unfold unquoteStep
  simp only [Fin.coe_ofNat_eq_mod, Nat.reduceMod, if_true, Nat.reduceEqDiff, if_false]
  rw [List.take_left' (length_hexDigits r 4), List.drop_left' (length_hexDigits r 4),
    unhexAll_hexDigits, Nat.zero_mul, Nat.zero_add, Nat.mod_eq_of_lt (by norm_num; omega)]

theorem unquoteStep_U (r : Nat) (rest : GoString) (h : r ≤ MaxRune) :
    unquoteStep (0x5C :: 0x55 :: (hexDigits r 8 ++ rest)) = (AppendRune r, rest) := by
  unfold unquoteStep
  simp only [Fin.coe_ofNat_eq_mod, Nat.reduceMod, if_true, Nat.reduceEqDiff, if_false]
  rw [List.take_left' (length_hexDigits r 8), List.drop_left' (length_hexDigits r 8),
    unhexAll_hexDigits, Nat.zero_mul, Nat.zero_add,
    Nat.mod_eq_of_lt (by unfold MaxRune at h; norm_num; omega)]

theorem appendRune_small (r : Nat) (h : r ≤ 0x7F) : AppendRune r = [byte r] := by
  unfold AppendRune
  rw [if_pos h]

theorem validRune_le (r : Nat) (hv : ValidRune r = true) : r ≤ MaxRune := by
  unfold ValidRune at hv
  split_ifs at hv with h1 h2
  · unfold MaxRune; omega
  · exact h2.2

/-- Reading back what `appendEscapedRune` wrote for a valid rune gives the
encoding of that rune. -/
theorem unquoteStep_escaped (tables : Nat → Bool) (r : Nat) (rest : GoString)
    (hv : ValidRune r = true) :
    unquoteStep (appendEscapedRune tables r ++ rest) = (AppendRune r, rest) := by
  unfold appendEscapedRune
  by_cases c1 : r = 0x22 ∨ r = 0x5C
  · rw [if_pos c1]
    rcases c1 with rfl | rfl <;> rfl
  rw [if_neg c1]
  by_cases c2 : IsPrint tables r = true
  · rw [if_pos c2]
    obtain ⟨b, bs, he, hw, h5c, _⟩ := appendRune_shape r
    rw [he]
    exact unquoteStep_raw b bs rest (h5c (by omega)) hw
  rw [if_neg c2]
  by_cases c3 : r = 0x07
  · subst c3; rfl
  rw [if_neg c3]
  by_cases c4 : r = 0x08
  · subst c4; rfl
  rw [if_neg c4]
  by_cases c5 : r = 0x0C
  · subst c5; rfl
  rw [if_neg c5]
  by_cases c6 : r = 0x0A
  · subst c6; rfl
  rw [if_neg c6]
  by_cases c7 : r = 0x0D
  · subst c7; rfl
  rw [if_neg c7]
  by_cases c8 : r = 0x09
  · subst c8; rfl
  rw [if_neg c8]
  by_cases c9 : r = 0x0B
  · subst c9; rfl
  rw [if_neg c9]
  by_cases c10 : r < 0x20 ∨ r = 0x7F
  · rw [if_pos c10]
    have hr : r ≤ 0x7F := by omega
    rw [appendRune_small r hr]
    show unquoteStep
      (0x5C :: 0x78 :: lowerhex (r % 256 / 16) :: lowerhex (r % 256 % 16) :: rest) = _
    rw [unquoteStep_x, unhex_lowerhex _ (by omega), unhex_lowerhex _ (by omega)]
    congr 2
    apply Fin.ext
    simp only [byte_val]
    omega
  rw [if_neg c10]
  have c11 : ¬ ((!ValidRune r) = true) := by simp [hv]
  rw [if_neg c11]
  by_cases c12 : r < 0x10000
  · rw [if_pos c12]
    exact unquoteStep_u r rest c12
  · rw [if_neg c12]
    exact unquoteStep_U r rest (validRune_le r hv)

/-- What `appendEscapedRune` writes starts with a byte other than the quote. -/
theorem appendEscapedRune_head (tables : Nat → Bool) (r : Nat) :
    ∃ b bs, appendEscapedRune tables r = b :: bs ∧ b.val ≠ 0x22 := by
  by_cases c1 : r = 0x22 ∨ r = 0x5C
  · exact ⟨0x5C, [byte r], by unfold appendEscapedRune; rw [if_pos c1], by decide⟩
  by_cases c2 : IsPrint tables r = true
  · obtain ⟨b, bs, he, _, _, h22⟩ := appendRune_shape r
    exact ⟨b, bs, by unfold appendEscapedRune; rw [if_neg c1, if_pos c2, he], h22 (by omega)⟩
  · have h : ∃ bs, appendEscapedRune tables r = 0x5C :: bs := by
      have key : ∀ (c : Prop) [Decidable c] (x y : GoString),
          (∃ bs, x = 0x5C :: bs) → (∃ bs, y = 0x5C :: bs) →
          ∃ bs, (if c then x else y) = 0x5C :: bs := by
        intro c _ x y hx hy
        by_cases hc : c
        · rw [if_pos hc]; exact hx
        · rw [if_neg hc]; exact hy
      unfold appendEscapedRune
      rw [if_neg c1, if_neg c2]
      repeat (first | exact ⟨_, rfl⟩ | apply key)
    obtain ⟨bs, h⟩ := h
    exact ⟨0x5C, bs, h, by decide⟩

theorem unquoteStep_hex_byte (s0 : Fin 256) (rest : GoString) :
    unquoteStep ([0x5C, 0x78, lowerhex (s0.val / 16), lowerhex (s0.val % 16)] ++ rest) =
      ([s0], rest) := by
  have hb := s0.isLt
  show unquoteStep (0x5C :: 0x78 :: lowerhex (s0.val / 16) :: lowerhex (s0.val % 16) :: rest) = _
  rw [unquoteStep_x, unhex_lowerhex _ (by omega), unhex_lowerhex _ (by omega)]
  congr 2
  apply Fin.ext
  simp only [byte_val]
  omega

/-- One iteration of the quoting loop can be read back: the bytes written
determine the bytes consumed, the width is positive and within the string,
and the first byte written is not the quote. -/
theorem appendQuotedStep_spec (tables : Nat → Bool) (s0 : Fin 256) (t rest : GoString) :
    unquoteStep ((appendQuotedStep tables s0 (s0 :: t)).1 ++ rest) =
        ((s0 :: t).take (appendQuotedStep tables s0 (s0 :: t)).2, rest) ∧
      1 ≤ (appendQuotedStep tables s0 (s0 :: t)).2 ∧
      (appendQuotedStep tables s0 (s0 :: t)).2 ≤ (s0 :: t).length ∧
      ∃ b bs, (appendQuotedStep tables s0 (s0 :: t)).1 = b :: bs ∧ b.val ≠ 0x22 := by
  have herr : ∀ rw : Nat × Nat, rw.2 = 1 ∧ rw.1 = RuneError →
      unquoteStep (([0x5C, 0x78, lowerhex (s0.val / 16), lowerhex (s0.val % 16)], 1).1 ++ rest) =
        ((s0 :: t).take ([0x5C, 0x78, lowerhex (s0.val / 16), lowerhex (s0.val % 16)], 1).2,
          rest) ∧
      1 ≤ (([0x5C, 0x78, lowerhex (s0.val / 16), lowerhex (s0.val % 16)], 1) :
        GoString × Nat).2 ∧
      (([0x5C, 0x78, lowerhex (s0.val / 16), lowerhex (s0.val % 16)], 1) :
        GoString × Nat).2 ≤ (s0 :: t).length ∧
      ∃ b bs, (([0x5C, 0x78, lowerhex (s0.val / 16), lowerhex (s0.val % 16)], 1) :
        GoString × Nat).1 = b :: bs ∧ b.val ≠ 0x22 := by
    intro _ _
    exact ⟨unquoteStep_hex_byte s0 rest, le_refl _, by simp, ⟨0x5C, _, rfl, by decide⟩⟩
  unfold appendQuotedStep
  by_cases h0 : s0.val ≥ RuneSelf
  · simp only [h0, if_true]
    by_cases hc : (DecodeRuneInString (s0 :: t)).2 = 1 ∧
        (DecodeRuneInString (s0 :: t)).1 = RuneError
    · rw [if_pos hc]
      exact herr _ hc
    · rw [if_neg hc]
      rcases decode_spec s0 t h0 with hd | ⟨hv, ha, h2, hl, _⟩
      · exact absurd hd hc
      · refine ⟨?_, by omega, hl, appendEscapedRune_head tables _⟩
        rw [unquoteStep_escaped tables _ rest hv, ha]
  · simp only [h0, if_false]
    have hlt : s0.val < 0x80 := by unfold RuneSelf at h0; omega
    have hc : ¬ (True ∧ s0.val = RuneError) := by unfold RuneError; omega
    rw [if_neg hc]
    have hv : ValidRune s0.val = true := by
      unfold ValidRune
      rw [if_pos (by omega)]
    refine ⟨?_, le_refl _, by simp, appendEscapedRune_head tables _⟩
    rw [unquoteStep_escaped tables _ rest hv, appendRune_one s0 hlt]
    rfl

theorem appendQuotedLoop_nil (tables : Nat → Bool) (fuel : Nat) :
    appendQuotedLoop tables fuel [] = [] := by
  cases fuel <;> rfl

theorem appendQuotedLoop_cons (tables : Nat → Bool) (fuel : Nat) (s0 : Fin 256)
    (t : GoString) :
    appendQuotedLoop tables (fuel + 1) (s0 :: t) =
      (appendQuotedStep tables s0 (s0 :: t)).1 ++
        appendQuotedLoop tables fuel ((s0 :: t).drop (appendQuotedStep tables s0 (s0 :: t)).2) :=
  rfl

/-- The quoted body of a string, closed by the quote, is a code that can be
read in only one way: two strings whose closed bodies agree up to what
follows are equal, and so is what follows. -/
theorem appendQuotedLoop_inj (tables : Nat → Bool) :
    ∀ (fuel : Nat) (s : GoString) (fuel2 : Nat) (s2 rest rest2 : GoString),
      s.length ≤ fuel → s2.length ≤ fuel2 →
      appendQuotedLoop tables fuel s ++ 0x22 :: rest =
        appendQuotedLoop tables fuel2 s2 ++ 0x22 :: rest2 →
      s = s2 ∧ rest = rest2 := by
  have hhead : ∀ (fuel : Nat) (s0 : Fin 256) (t rest rest2 : GoString),
      (s0 :: t).length ≤ fuel →
      0x22 :: rest2 ≠ appendQuotedLoop tables fuel (s0 :: t) ++ 0x22 :: rest := by
    intro fuel s0 t rest rest2 hl he
    obtain ⟨fuel, rfl⟩ : ∃ k, fuel = k + 1 := ⟨fuel - 1, by simp at hl; omega⟩
    obtain ⟨_, _, _, b, bs, hb, hne⟩ := appendQuotedStep_spec tables s0 t []
    rw [appendQuotedLoop_cons, hb] at he
    simp only [List.cons_append, List.cons.injEq] at he
    exact hne (by rw [← he.1]; rfl)
  intro fuel
  induction fuel with
  | zero =>
    intro s fuel2 s2 rest rest2 hl hl2 he
    have hs : s = [] := List.length_eq_zero.1 (by omega)
    subst hs
    rcases s2 with _ | ⟨s0, t⟩
    · rw [appendQuotedLoop_nil, appendQuotedLoop_nil] at he
      simp only [List.nil_append, List.cons.injEq, true_and] at he
      exact ⟨rfl, he⟩
    · rw [appendQuotedLoop_nil] at he
      exact absurd he (hhead fuel2 s0 t rest2 rest hl2)
  | succ fuel ih =>
    intro s fuel2 s2 rest rest2 hl hl2 he
    rcases s with _ | ⟨s0, t⟩
    · rcases s2 with _ | ⟨s0, t⟩
      · rw [appendQuotedLoop_nil, appendQuotedLoop_nil] at he
        simp only [List.nil_append, List.cons.injEq, true_and] at he
        exact ⟨rfl, he⟩
      · rw [appendQuotedLoop_nil] at he
        exact absurd he (hhead fuel2 s0 t rest2 rest hl2)
    · rcases s2 with _ | ⟨u0, u⟩
      · rw [appendQuotedLoop_nil tables fuel2] at he
        exact absurd he.symm (hhead (fuel + 1) s0 t rest rest2 hl)
      · obtain ⟨fuel2, rfl⟩ : ∃ k, fuel2 = k + 1 := ⟨fuel2 - 1, by simp at hl2; omega⟩
        rw [appendQuotedLoop_cons, appendQuotedLoop_cons, List.append_assoc,
          List.append_assoc] at he
        obtain ⟨h1, hw1, hw2, _⟩ := appendQuotedStep_spec tables s0 t
          (appendQuotedLoop tables fuel
            ((s0 :: t).drop (appendQuotedStep tables s0 (s0 :: t)).2) ++ 0x22 :: rest)
        obtain ⟨h2, hv1, hv2, _⟩ := appendQuotedStep_spec tables u0 u
          (appendQuotedLoop tables fuel2
            ((u0 :: u).drop (appendQuotedStep tables u0 (u0 :: u)).2) ++ 0x22 :: rest2)
        rw [he, h2] at h1
        simp only [Prod.mk.injEq] at h1
        obtain ⟨htake, hrest⟩ := h1
        have hlen := congrArg List.length htake
        rw [List.length_take, List.length_take, Nat.min_eq_left hw2, Nat.min_eq_left hv2] at hlen
        have hd1 : ((s0 :: t).drop (appendQuotedStep tables s0 (s0 :: t)).2).length ≤ fuel := by
          rw [List.length_drop]; simp only [List.length_cons] at hl ⊢; omega
        have hd2 : ((u0 :: u).drop (appendQuotedStep tables u0 (u0 :: u)).2).length ≤ fuel2 := by
          rw [List.length_drop]; simp only [List.length_cons] at hl2 ⊢; omega
        obtain ⟨hdrop, hr⟩ := ih _ fuel2 _ rest rest2 hd1 hd2 hrest.symm
        refine ⟨?_, hr⟩
        rw [← List.take_append_drop (appendQuotedStep tables s0 (s0 :: t)).2 (s0 :: t),
          ← List.take_append_drop (appendQuotedStep tables u0 (u0 :: u)).2 (u0 :: u),
          hdrop, htake]

/-- The fuel of the quoting loop is no restriction: any amount that covers
the length of the string gives the same output. -/
theorem appendQuotedLoop_fuel (tables : Nat → Bool) :
    ∀ (fuel fuel2 : Nat) (s : GoString), s.length ≤ fuel → s.length ≤ fuel2 →
      appendQuotedLoop tables fuel s = appendQuotedLoop tables fuel2 s := by
  intro fuel
  induction fuel with
  | zero =>
    intro fuel2 s hl _
    have hs : s = [] := List.length_eq_zero.1 (by omega)
    rw [hs, appendQuotedLoop_nil, appendQuotedLoop_nil]
  | succ fuel ih =>
    intro fuel2 s hl hl2
    rcases s with _ | ⟨s0, t⟩
    · rw [appendQuotedLoop_nil, appendQuotedLoop_nil]
    · obtain ⟨fuel2, rfl⟩ : ∃ k, fuel2 = k + 1 := ⟨fuel2 - 1, by simp at hl2; omega⟩
      obtain ⟨_, hw1, _, _⟩ := appendQuotedStep_spec tables s0 t []
      rw [appendQuotedLoop_cons, appendQuotedLoop_cons]
      congr 1
      apply ih
      · rw [List.length_drop]; simp only [List.length_cons] at hl ⊢; omega
      · rw [List.length_drop]; simp only [List.length_cons] at hl2 ⊢; omega

/-- A string with a quote, a backslash, a newline, a control byte, a
two-byte rune and a stray byte, as Go quotes it. -/
theorem AppendQuote_example (tables : Nat → Bool) :
    AppendQuote tables [0x61, 0x22, 0x5C, 0x0A, 0x01, 0xC3, 0xA9, 0xFF] =
      [0x22, 0x61, 0x5C, 0x22, 0x5C, 0x5C, 0x5C, 0x6E, 0x5C, 0x78, 0x30, 0x31, 0xC3, 0xA9,
        0x5C, 0x78, 0x66, 0x66, 0x22] := by
  rfl

/-- `strconv.Quote` followed by anything determines the string and what
follows. -/
theorem AppendQuote_inj (tables : Nat → Bool) (s s2 rest rest2 : GoString)
    (h : AppendQuote tables s ++ rest = AppendQuote tables s2 ++ rest2) :
    s = s2 ∧ rest = rest2 := by
  unfold AppendQuote at h
  simp only [List.cons_append, List.append_assoc, List.singleton_append, List.cons.injEq,
    true_and] at h
  exact appendQuotedLoop_inj tables _ s _ s2 rest rest2 (le_refl _) (le_refl _) h

/-- C6: the token of `zoneCacheKey.String` is injective: two keys have the
same token exactly when they have the same account id and the same zone
name, whatever bytes these strings contain. -/
theorem zoneCacheKey_String_injective (tables : Nat → Bool)
    (accountID1 zoneName1 accountID2 zoneName2 : GoString) :
    zoneCacheKey.String tables ⟨accountID1, zoneName1⟩ =
        zoneCacheKey.String tables ⟨accountID2, zoneName2⟩ ↔
      accountID1 = accountID2 ∧ zoneName1 = zoneName2 := by
  constructor
  · intro h
    unfold zoneCacheKey.String at h
    simp only [List.append_assoc] at h
    have h1 := List.append_cancel_left h
    obtain ⟨ha, h2⟩ := AppendQuote_inj tables _ _ _ _ h1
    have h3 := List.append_cancel_left h2
    obtain ⟨hz, _⟩ := AppendQuote_inj tables _ _ _ _ h3
    exact ⟨ha, hz⟩
  · rintro ⟨rfl, rfl⟩
    rfl

/-- Two keys that a token without quoting would confuse: the account id of
the first one ends with the text that separates the fields.  Their tokens
differ. -/
theorem zoneCacheKey_String_injective_witness :
    zoneCacheKey.String (fun _ => true) ⟨ascii "a\", zoneName:\"b", ascii "c"⟩ ≠
      zoneCacheKey.String (fun _ => true) ⟨ascii "a", ascii "b\", zoneName:\"c"⟩ := by
  intro h
  have h2 := ((zoneCacheKey_String_injective (fun _ => true) (ascii "a\", zoneName:\"b")
    (ascii "c") (ascii "a") (ascii "b\", zoneName:\"c")).1 h).2
  exact absurd h2 (by decide)

/-- The token of the key (`1`, `a.io`), as Go prints it. -/
theorem zoneCacheKey_String_example (tables : Nat → Bool) :
    zoneCacheKey.String tables ⟨ascii "1", ascii "a.io"⟩ =
      ascii "&dnsimple.zoneCacheKey\x7baccountID:\"1\", zoneName:\"a.io\"\x7d" := by
  rfl

/-! ## The page loop -/

section Service

variable {σ : Type}

theorem pageCallsFrom_eq_map (key : zoneCacheKey) :
    ∀ (n page : Nat),
      pageCallsFrom key page n = (List.range n).map (fun i => pageCall key (page + i)) := by
  intro n
  induction n with
  | zero => intro page; rfl
  | succ n ih =>
    intro page
    rw [pageCallsFrom, ih, List.range_succ_eq_map, List.map_cons, List.map_map]
    congr 1
    apply List.map_congr_left
    intro i _
    simp only [Function.comp, Nat.succ_eq_add_one]
    congr 1
    omega

theorem pageCalls_eq (key : zoneCacheKey) (n : Nat) :
    pageCalls key n = pageCallsFrom key 1 n := by
  rw [pageCallsFrom_eq_map, pageCalls]
  apply List.map_congr_left
  intro i _
  rw [Nat.add_comm]

theorem loop_succ (maxCap : Nat) (key : zoneCacheKey) (fuel page : Nat)
    (records : Option (List ZoneRecord)) (s : cachedRecordsService σ) :
    getAllRecords_loop maxCap key (fuel + 1) page records s =
      match (s.client.Zones.ListRecords s.remote key.accountID key.zoneName
          ⟨⟨some page, some 100⟩⟩).1 with
      | .error err => (.returned (.error err), fetched s key page
          (s.client.Zones.ListRecords s.remote key.accountID key.zoneName
            ⟨⟨some page, some 100⟩⟩).2)
      | .ok resp =>
        match resp.Pagination with
        | none => (.panicked, fetched s key page
            (s.client.Zones.ListRecords s.remote key.accountID key.zoneName
              ⟨⟨some page, some 100⟩⟩).2)
        | some pagination =>
          match getAllRecords_alloc maxCap records pagination.TotalEntries with
          | none => (.panicked, fetched s key page
              (s.client.Zones.ListRecords s.remote key.accountID key.zoneName
                ⟨⟨some page, some 100⟩⟩).2)
          | some allocated =>
            if pagination.CurrentPage ≥ pagination.TotalPages then
              (.returned (.ok (allocated ++ resp.Data)), fetched s key page
                (s.client.Zones.ListRecords s.remote key.accountID key.zoneName
                  ⟨⟨some page, some 100⟩⟩).2)
            else
              getAllRecords_loop maxCap key fuel (page + 1) (some (allocated ++ resp.Data))
                (fetched s key page
                  (s.client.Zones.ListRecords s.remote key.accountID key.zoneName
                    ⟨⟨some page, some 100⟩⟩).2) := by
  rw [getAllRecords_loop]
  rfl

theorem morePages_iff (resp : ZoneRecordsResponse) :
    morePages resp ↔ ∃ p, resp.Pagination = some p ∧ ¬ p.CurrentPage ≥ p.TotalPages := by
  unfold morePages
  cases resp.Pagination with
  | none => simp
  | some p => simp

theorem lastPage_iff (resp : ZoneRecordsResponse) :
    lastPage resp ↔ ∃ p, resp.Pagination = some p ∧ p.CurrentPage ≥ p.TotalPages := by
  unfold lastPage
  cases resp.Pagination with
  | none => simp
  | some p => simp

theorem allocatable_iff (maxCap : Nat) (resp : ZoneRecordsResponse) :
    allocatable maxCap resp ↔
      ∃ p, resp.Pagination = some p ∧ make maxCap p.TotalEntries = some [] := by
  unfold allocatable make
  cases resp.Pagination with
  | none => simp
  | some p =>
    by_cases h : 0 ≤ p.TotalEntries ∧ p.TotalEntries ≤ (maxCap : Int)
    · simp [h]
    · simp [h]

/-- Once the slice is allocated, a series of successful responses of which
only the last one passes the stop test drives the loop through exactly
these pages. -/
theorem loop_of_serves (maxCap : Nat) (key : zoneCacheKey) (last : ZoneRecordsResponse) :
    ∀ (rs : List ZoneRecordsResponse) (fuel page : Nat) (acc : List ZoneRecord)
      (s : cachedRecordsService σ) (r1 : σ),
      Serves s.client.Zones key s.remote page (rs ++ [last]) r1 →
      (∀ r ∈ rs, morePages r) → lastPage last → rs.length + 1 ≤ fuel →
      getAllRecords_loop maxCap key fuel page (some acc) s =
        (.returned (.ok (acc ++ allItems (rs ++ [last]))),
          ⟨s.client, s.cache, r1, s.fetches ++ pageCallsFrom key page (rs.length + 1)⟩) := by
  intro rs
  induction rs with
  | nil =>
    intro fuel page acc s r1 hs _ hl hf
    obtain ⟨fuel, rfl⟩ : ∃ k, fuel = k + 1 := ⟨fuel - 1, by simp at hf; omega⟩
    simp only [List.nil_append, Serves] at hs
    obtain ⟨h1, h2⟩ := hs
    obtain ⟨p, hp, hstop⟩ := (lastPage_iff last).1 hl
    rw [loop_succ]
    simp [h1, h2, hp, hstop, allItems, fetched, pageCallsFrom, getAllRecords_alloc]
  | cons r rs ih =>
    intro fuel page acc s r1 hs hn hl hf
    obtain ⟨fuel, rfl⟩ : ∃ k, fuel = k + 1 := ⟨fuel - 1, by simp at hf; omega⟩
    simp only [List.cons_append, Serves] at hs
    obtain ⟨h1, h2⟩ := hs
    obtain ⟨p, hp, hr⟩ := (morePages_iff r).1 (hn r (List.mem_cons_self _ _))
    have hf2 : rs.length + 1 ≤ fuel := by simp at hf; omega
    rw [loop_succ]
    simp only [h1, hp, getAllRecords_alloc, hr, if_false]
    rw [ih fuel (page + 1) (acc ++ r.Data) (fetched s key page _) r1 h2
      (fun x hx => hn x (List.mem_cons_of_mem _ hx)) hl hf2]
    simp [allItems, fetched, pageCallsFrom]

/-- Once the slice is allocated, a series of successful responses none of
which passes the stop test, followed by a failed fetch, makes the loop
return that error. -/
theorem loop_of_error (maxCap : Nat) (key : zoneCacheKey) (e : GoError) :
    ∀ (rs : List ZoneRecordsResponse) (fuel page : Nat) (records : Option (List ZoneRecord))
      (s : cachedRecordsService σ) (r1 r2 : σ),
      Serves s.client.Zones key s.remote page rs r1 →
      (∀ r ∈ rs, morePages r) →
      (rs ≠ [] → records ≠ none) →
      s.client.Zones.ListRecords r1 key.accountID key.zoneName
        ⟨⟨some (page + rs.length), some 100⟩⟩ = (.error e, r2) →
      rs.length + 1 ≤ fuel →
      getAllRecords_loop maxCap key fuel page records s =
        (.returned (.error e),
          ⟨s.client, s.cache, r2, s.fetches ++ pageCallsFrom key page (rs.length + 1)⟩) := by
  intro rs
  induction rs with
  | nil =>
    intro fuel page records s r1 r2 hs _ _ he hf
    obtain ⟨fuel, rfl⟩ : ∃ k, fuel = k + 1 := ⟨fuel - 1, by simp at hf; omega⟩
    simp only [Serves] at hs
    subst hs
    simp only [List.length_nil, Nat.add_zero] at he
    rw [loop_succ]
    simp [he, fetched, pageCallsFrom]
  | cons r rs ih =>
    intro fuel page records s r1 r2 hs hn hrec he hf
    obtain ⟨fuel, rfl⟩ : ∃ k, fuel = k + 1 := ⟨fuel - 1, by simp at hf; omega⟩
    obtain ⟨acc, rfl⟩ : ∃ acc, records = some acc := by
      cases records with
      | none => exact absurd rfl (hrec (by simp))
      | some acc => exact ⟨acc, rfl⟩
    simp only [Serves] at hs
    obtain ⟨h1, h2⟩ := hs
    obtain ⟨p, hp, hr⟩ := (morePages_iff r).1 (hn r (List.mem_cons_self _ _))
    have hf2 : rs.length + 1 ≤ fuel := by simp at hf; omega
    have hpage : page + (r :: rs).length = page + 1 + rs.length := by
      rw [List.length_cons]; omega
    rw [hpage] at he
    rw [loop_succ]
    simp only [h1, hp, getAllRecords_alloc, hr, if_false]
    rw [ih fuel (page + 1) (some (acc ++ r.Data)) (fetched s key page
      (s.client.Zones.ListRecords s.remote key.accountID key.zoneName
        ⟨⟨some page, some 100⟩⟩).2) r1 r2 h2
      (fun x hx => hn x (List.mem_cons_of_mem _ hx)) (fun _ => by simp) he hf2]
    simp [fetched, pageCallsFrom]

/-- When the first response, if the fetch succeeds, reports a capacity that
`make` accepts, the loop entered with the nil slice runs as if entered with
the empty one. -/
theorem loop_start (maxCap : Nat) (key : zoneCacheKey) (fuel page : Nat)
    (s : cachedRecordsService σ)
    (h : ∀ resp, (s.client.Zones.ListRecords s.remote key.accountID key.zoneName
      ⟨⟨some page, some 100⟩⟩).1 = .ok resp → allocatable maxCap resp) :
    getAllRecords_loop maxCap key fuel page none s =
      getAllRecords_loop maxCap key fuel page (some []) s := by
  cases fuel with
  | zero => rfl
  | succ fuel =>
    rw [loop_succ, loop_succ]
    cases h1 : (s.client.Zones.ListRecords s.remote key.accountID key.zoneName
        ⟨⟨some page, some 100⟩⟩).1 with
    | error e => rfl
    | ok resp =>
      obtain ⟨p, hp, hmake⟩ := (allocatable_iff maxCap resp).1 (h resp h1)
      simp only [hp, getAllRecords_alloc, hmake]

/-- Whatever the remote answers and however the loop ends, it leaves client
and cache alone and asks for consecutive pages of its own key. -/
theorem loop_fetches (maxCap : Nat) (key : zoneCacheKey) :
    ∀ (fuel page : Nat) (records : Option (List ZoneRecord)) (s : cachedRecordsService σ),
      ∃ n, n ≤ fuel ∧ (0 < fuel → 0 < n) ∧
        (getAllRecords_loop maxCap key fuel page records s).2.fetches =
          s.fetches ++ pageCallsFrom key page n ∧
        (getAllRecords_loop maxCap key fuel page records s).2.cache = s.cache ∧
        (getAllRecords_loop maxCap key fuel page records s).2.client = s.client := by
  intro fuel
  induction fuel with
  | zero =>
    intro page records s
    exact ⟨0, le_refl _, by simp, by simp [getAllRecords_loop, pageCallsFrom], rfl, rfl⟩
  | succ fuel ih =>
    intro page records s
    have hone : ∀ out : Run (Except GoError (List ZoneRecord)),
        ∃ n, n ≤ fuel + 1 ∧ (0 < fuel + 1 → 0 < n) ∧
          ((out, fetched s key page (s.client.Zones.ListRecords s.remote key.accountID
            key.zoneName ⟨⟨some page, some 100⟩⟩).2) :
              Run (Except GoError (List ZoneRecord)) × cachedRecordsService σ).2.fetches =
            s.fetches ++ pageCallsFrom key page n ∧
          ((out, fetched s key page (s.client.Zones.ListRecords s.remote key.accountID
            key.zoneName ⟨⟨some page, some 100⟩⟩).2) :
              Run (Except GoError (List ZoneRecord)) × cachedRecordsService σ).2.cache =
            s.cache ∧
          ((out, fetched s key page (s.client.Zones.ListRecords s.remote key.accountID
            key.zoneName ⟨⟨some page, some 100⟩⟩).2) :
              Run (Except GoError (List ZoneRecord)) × cachedRecordsService σ).2.client =
            s.client := by
      intro out
      exact ⟨1, by omega, by simp, by simp [fetched, pageCallsFrom], rfl, rfl⟩
    rw [loop_succ]
    cases h1 : (s.client.Zones.ListRecords s.remote key.accountID key.zoneName
        ⟨⟨some page, some 100⟩⟩).1 with
    | error e => exact hone _
    | ok resp =>
      dsimp only
      cases hp : resp.Pagination with
      | none => exact hone _
      | some p =>
        dsimp only
        cases ha : getAllRecords_alloc maxCap records p.TotalEntries with
        | none => exact hone _
        | some allocated =>
          dsimp only
          by_cases hr : p.CurrentPage ≥ p.TotalPages
          · rw [if_pos hr]
            exact hone _
          · rw [if_neg hr]
            obtain ⟨n, hn, _, hf, hc, hcl⟩ := ih (page + 1) (some (allocated ++ resp.Data))
              (fetched s key page (s.client.Zones.ListRecords s.remote key.accountID
                key.zoneName ⟨⟨some page, some 100⟩⟩).2)
            refine ⟨n + 1, by omega, by simp, ?_, ?_, ?_⟩
            · rw [hf]; simp [fetched, pageCallsFrom]
            · rw [hc]; rfl
            · rw [hcl]; rfl

/-! ## The service -/

theorem getAllRecords_hit (maxCap fuel : Nat) (s : cachedRecordsService σ) (key : zoneCacheKey)
    (v : List ZoneRecord) (h : s.cache.Load key = some v) :
    getAllRecords maxCap fuel s key = (.returned (.ok v), s) := by
  simp [getAllRecords, h]

theorem getAllRecords_miss (maxCap fuel : Nat) (s : cachedRecordsService σ)
    (key : zoneCacheKey) (h : s.cache.Load key = none) :
    getAllRecords maxCap fuel s key =
      match getAllRecords_loop maxCap key fuel 1 none s with
      | (.returned (.ok records), s1) =>
        (.returned (.ok records),
          ⟨s1.client, s1.cache.Store key records, s1.remote, s1.fetches⟩)
      | (.returned (.error err), s1) => (.returned (.error err), s1)
      | (.panicked, s1) => (.panicked, s1)
      | (.running, s1) => (.running, s1) := by
  simp [getAllRecords, h]

theorem getAllRecords_fetches_of_miss (maxCap fuel : Nat) (s : cachedRecordsService σ)
    (key : zoneCacheKey) (h : s.cache.Load key = none) :
    (getAllRecords maxCap fuel s key).2.fetches =
      (getAllRecords_loop maxCap key fuel 1 none s).2.fetches := by
  rw [getAllRecords_miss maxCap fuel s key h]
  rcases getAllRecords_loop maxCap key fuel 1 none s with ⟨(_ | _) | _ | _, s1⟩ <;> rfl

theorem GetRecord_eq (tables : Nat → Bool) (maxCap fuel : Nat) (s : cachedRecordsService σ)
    (accountID zoneName : GoString) (recordID : Int) :
    GetRecord tables maxCap fuel s accountID zoneName recordID =
      match getAllRecords maxCap fuel s ⟨accountID, zoneName⟩ with
      | (.returned (.ok records), s1) => (.returned (GetRecord_scan recordID records), s1)
      | (.returned (.error err), s1) => (.returned (.error err), s1)
      | (.panicked, s1) => (.panicked, s1)
      | (.running, s1) => (.running, s1) := rfl

theorem GetRecord_fetches (tables : Nat → Bool) (maxCap fuel : Nat)
    (s : cachedRecordsService σ) (accountID zoneName : GoString) (recordID : Int) :
    (GetRecord tables maxCap fuel s accountID zoneName recordID).2 =
      (getAllRecords maxCap fuel s ⟨accountID, zoneName⟩).2 := by
  rw [GetRecord_eq]
  rcases getAllRecords maxCap fuel s ⟨accountID, zoneName⟩ with ⟨(_ | _) | _ | _, s1⟩ <;> rfl

theorem scan_not_found_iff (recordID : Int) :
    ∀ records : List ZoneRecord,
      GetRecord_scan recordID records = .error (Errorf "404") ↔
        ∀ r ∈ records, r.ID ≠ recordID := by
  intro records
  induction records with
  | nil => simp [GetRecord_scan]
  | cons r rest ih =>
    by_cases h : r.ID = recordID
    · simp [GetRecord_scan, h]
    · simp [GetRecord_scan, h, ih]

theorem scan_found (recordID : Int) :
    ∀ records : List ZoneRecord, (∃ r ∈ records, r.ID = recordID) →
      ∃ pre r post, records = pre ++ r :: post ∧ r.ID = recordID ∧
        (∀ x ∈ pre, x.ID ≠ recordID) ∧ GetRecord_scan recordID records = .ok r := by
  intro records
  induction records with
  | nil => simp
  | cons r rest ih =>
    intro hex
    by_cases h : r.ID = recordID
    · exact ⟨[], r, rest, rfl, h, by simp, by simp [GetRecord_scan, h]⟩
    · have hex2 : ∃ x ∈ rest, x.ID = recordID := by
        obtain ⟨x, hx, hid⟩ := hex
        rcases List.mem_cons.1 hx with rfl | hx
        · exact absurd hid h
        · exact ⟨x, hx, hid⟩
      obtain ⟨pre, x, post, he, hid, hpre, hscan⟩ := ih hex2
      refine ⟨r :: pre, x, post, by rw [he]; rfl, hid, ?_, by simp [GetRecord_scan, h, hscan]⟩
      intro y hy
      rcases List.mem_cons.1 hy with rfl | hy
      · exact h
      · exact hpre y hy

theorem mockRecords_append (a n m : Nat) :
    mockRecords a n ++ mockRecords (a + n) m = mockRecords a (n + m) := by
  simp only [mockRecords, List.range_add, List.map_append, List.map_map]
  congr 1
  apply List.map_congr_left
  intro i _
  simp [Function.comp, Nat.add_assoc]

theorem mockRecords_237 :
    allItems ([mockPage 1, mockPage 2] ++ [mockPage 3]) = mockRecords 1 237 := by
  have h1 := mockRecords_append 1 100 100
  have h2 := mockRecords_append 1 200 37
  simp only [Nat.reduceAdd] at h1 h2
  simp only [allItems, mockPage, List.cons_append, List.nil_append, List.map_cons,
    List.map_nil, List.flatten_cons, List.flatten_nil, List.append_nil]
  simp only [OfNat.ofNat_ne_one, ↓reduceIte, Nat.reduceEqDiff, if_true]
  rw [← List.append_assoc, h1, h2]

/-! ## Pagination -/

/-- C1, as stated, fails: a successful single-page response that passes the
stop test but reports `total_entries = -1` (or `2 ^ 60`, beyond what the
runtime allocates) makes `make` panic after the first fetch: nothing is
returned and nothing is cached.  So does a first response without a
pagination block, followed by one that passes the stop test: the code
panics on the first, before the second fetch. -/
theorem getAllRecords_concatenates_pages_counterexample :
    (mockService (fun _ => .ok negativeCountPage)).cache.Load mockKey = none ∧
      Serves (mockService (fun _ => .ok negativeCountPage)).client.Zones mockKey
        (mockService (fun _ => .ok negativeCountPage)).remote 1 ([] ++ [negativeCountPage]) () ∧
      lastPage negativeCountPage ∧
      (getAllRecords mockMaxCap 5 (mockService (fun _ => .ok negativeCountPage)) mockKey).1 =
        .panicked ∧
      (getAllRecords mockMaxCap 5 (mockService (fun _ => .ok negativeCountPage))
        mockKey).2.fetches = [pageCall mockKey 1] ∧
      (getAllRecords mockMaxCap 5 (mockService (fun _ => .ok negativeCountPage))
        mockKey).2.cache.Load mockKey = none ∧
      (getAllRecords 0 5 (mockService (fun _ => .ok negativeCountPage)) mockKey).1 =
        .panicked ∧
      lastPage hugeCountPage ∧
      (getAllRecords mockMaxCap 5 (mockService (fun _ => .ok hugeCountPage)) mockKey).1 =
        .panicked ∧
      Serves (mockService (fun page => .ok (bareThenLast page))).client.Zones mockKey
        (mockService (fun page => .ok (bareThenLast page))).remote 1
        ([bareThenLast 1] ++ [bareThenLast 2]) () ∧
      (bareThenLast 1).Pagination = none ∧ lastPage (bareThenLast 2) ∧
      (getAllRecords mockMaxCap 5 (mockService (fun page => .ok (bareThenLast page)))
        mockKey).1 = .panicked ∧
      (getAllRecords mockMaxCap 5 (mockService (fun page => .ok (bareThenLast page)))
        mockKey).2.fetches = [pageCall mockKey 1] := by
  refine ⟨rfl, ⟨rfl, rfl⟩, ?_, rfl, rfl, rfl, rfl, ?_, rfl, ⟨rfl, rfl, rfl⟩, rfl, ?_, rfl, rfl⟩
  · simp [lastPage, negativeCountPage]
  · simp [lastPage, hugeCountPage]
  · simp [lastPage, bareThenLast]

/-- C1, amended: on a cache miss, when the remote answers the consecutive
page fetches with the successful responses `rs ++ [last]`, each carrying a
pagination block, the first of them with a `total_entries` that `make`
accepts as a capacity, and `last` being the first that reports
`current_page >= total_pages`, `getAllRecords` (given fuel for that many
iterations) returns the items of these responses concatenated in page order,
makes exactly `rs.length + 1` page fetches (pages `1` to `rs.length + 1`),
and stores that snapshot; for page sizes 100, 100 and 37 the snapshot has
237 items. -/
theorem getAllRecords_concatenates_pages (maxCap fuel : Nat) (s : cachedRecordsService σ)
    (key : zoneCacheKey) (rs : List ZoneRecordsResponse) (last : ZoneRecordsResponse) (r1 : σ)
    (hmiss : s.cache.Load key = none)
    (hserves : Serves s.client.Zones key s.remote 1 (rs ++ [last]) r1)
    (hmore : ∀ r ∈ rs, morePages r) (hlast : lastPage last)
    (halloc : ∀ r, (rs ++ [last]).head? = some r → allocatable maxCap r)
    (hfuel : rs.length + 1 ≤ fuel) :
    getAllRecords maxCap fuel s key =
        (.returned (.ok (allItems (rs ++ [last]))),
          ⟨s.client, s.cache.Store key (allItems (rs ++ [last])), r1,
            s.fetches ++ pageCalls key (rs.length + 1)⟩) ∧
      ((rs ++ [last]).map (fun resp => resp.Data.length) = [100, 100, 37] →
        ∃ items, (getAllRecords maxCap fuel s key).1 = .returned (.ok items) ∧
          items.length = 237 ∧ items = allItems (rs ++ [last])) := by
  have hstart : ∀ resp, (s.client.Zones.ListRecords s.remote key.accountID key.zoneName
      ⟨⟨some 1, some 100⟩⟩).1 = .ok resp → allocatable maxCap resp := by
    intro resp hresp
    cases rs with
    | nil =>
      simp only [List.nil_append, Serves] at hserves
      rw [hserves.1] at hresp
      exact halloc resp (by simp only [Except.ok.injEq] at hresp; rw [hresp]; rfl)
    | cons r rs =>
      simp only [List.cons_append, Serves] at hserves
      rw [hserves.1] at hresp
      exact halloc resp (by simp only [Except.ok.injEq] at hresp; rw [hresp]; rfl)
  have hrun : getAllRecords maxCap fuel s key =
      (.returned (.ok (allItems (rs ++ [last]))),
        ⟨s.client, s.cache.Store key (allItems (rs ++ [last])), r1,
          s.fetches ++ pageCalls key (rs.length + 1)⟩) := by
    rw [getAllRecords_miss maxCap fuel s key hmiss, loop_start maxCap key fuel 1 s hstart,
      loop_of_serves maxCap key last rs fuel 1 [] s r1 hserves hmore hlast hfuel, pageCalls_eq]
    simp
  refine ⟨hrun, fun hsizes => ⟨allItems (rs ++ [last]), by rw [hrun], ?_, rfl⟩⟩
  have hlen : ∀ l : List ZoneRecordsResponse,
      (allItems l).length = (l.map (fun resp => resp.Data.length)).sum := by
    intro l
    induction l with
    | nil => rfl
    | cons x l ih =>
      have hcons : allItems (x :: l) = x.Data ++ allItems l := by simp [allItems]
      rw [hcons, List.length_append, ih, List.map_cons, List.sum_cons]
  rw [hlen, hsizes]
  rfl

/-- The three-page series of sizes 100, 100 and 37 is assembled into the
237 records with ids 1 to 237, in order, with three page fetches. -/
theorem getAllRecords_concatenates_pages_witness :
    (mockService (fun page => .ok (mockPage page))).cache.Load mockKey = none ∧
      Serves (mockService (fun page => .ok (mockPage page))).client.Zones mockKey
        (mockService (fun page => .ok (mockPage page))).remote 1
        ([mockPage 1, mockPage 2] ++ [mockPage 3]) () ∧
      (∀ r ∈ [mockPage 1, mockPage 2], morePages r) ∧ lastPage (mockPage 3) ∧
      (∀ r, ([mockPage 1, mockPage 2] ++ [mockPage 3]).head? = some r →
        allocatable mockMaxCap r) ∧
      [mockPage 1, mockPage 2].length + 1 ≤ 3 ∧
      (getAllRecords mockMaxCap 3 (mockService (fun page => .ok (mockPage page))) mockKey).1 =
        .returned (.ok (mockRecords 1 237)) ∧
      (getAllRecords mockMaxCap 3 (mockService (fun page => .ok (mockPage page)))
        mockKey).2.fetches = [pageCall mockKey 1, pageCall mockKey 2, pageCall mockKey 3] ∧
      (mockRecords 1 237).length = 237 := by
  have hmiss : (mockService (fun page => .ok (mockPage page))).cache.Load mockKey = none := rfl
  have hserves : Serves (mockService (fun page => .ok (mockPage page))).client.Zones mockKey
      (mockService (fun page => .ok (mockPage page))).remote 1
      ([mockPage 1, mockPage 2] ++ [mockPage 3]) () := ⟨rfl, rfl, rfl, rfl⟩
  have hmore : ∀ r ∈ [mockPage 1, mockPage 2], morePages r := by
    simp [morePages, mockPage]
  have hlast : lastPage (mockPage 3) := by simp [lastPage, mockPage]
  have halloc : ∀ r, ([mockPage 1, mockPage 2] ++ [mockPage 3]).head? = some r →
      allocatable mockMaxCap r := by
    intro r hr
    simp only [List.cons_append, List.head?_cons, Option.some.injEq] at hr
    rw [← hr]
    simp [allocatable, mockPage, mockMaxCap]
  have hfuel : [mockPage 1, mockPage 2].length + 1 ≤ 3 := by decide
  have h := (getAllRecords_concatenates_pages mockMaxCap 3
    (mockService (fun page => .ok (mockPage page)))
    mockKey [mockPage 1, mockPage 2] (mockPage 3) () hmiss hserves hmore hlast halloc hfuel).1
  refine ⟨hmiss, hserves, hmore, hlast, halloc, hfuel, ?_, ?_, by simp [mockRecords]⟩
  · rw [h, mockRecords_237]
  · rw [h]; rfl

/-- C2, as stated, fails: when page 1 of 3 succeeds but reports
`total_entries = -1` and page 2 would fail with `503`, the code panics in
`make` after the first fetch: the error of page 2 is never returned and the
second fetch is never made (the key does stay unset).  The same happens
when page 1 comes without a pagination block. -/
theorem getAllRecords_fetch_error_counterexample :
    (mockService negativeThenFailing).cache.Load mockKey = none ∧
      Serves (mockService negativeThenFailing).client.Zones mockKey
        (mockService negativeThenFailing).remote 1
        [⟨some ⟨1, 100, 3, -1⟩, mockRecords 1 100⟩] () ∧
      (∀ r ∈ [(⟨some ⟨1, 100, 3, -1⟩, mockRecords 1 100⟩ : ZoneRecordsResponse)],
        morePages r) ∧
      (mockService negativeThenFailing).client.Zones.ListRecords () mockKey.accountID
        mockKey.zoneName ⟨⟨some 2, some 100⟩⟩ = (.error (Errorf "503"), ()) ∧
      (getAllRecords mockMaxCap 5 (mockService negativeThenFailing) mockKey).1 = .panicked ∧
      (getAllRecords mockMaxCap 5 (mockService negativeThenFailing) mockKey).2.fetches =
        [pageCall mockKey 1] ∧
      (getAllRecords mockMaxCap 5 (mockService negativeThenFailing)
        mockKey).2.cache.Load mockKey = none ∧
      (mockService bareThenFailing).client.Zones.ListRecords () mockKey.accountID
        mockKey.zoneName ⟨⟨some 1, some 100⟩⟩ = (.ok ⟨none, mockRecords 1 1⟩, ()) ∧
      (mockService bareThenFailing).client.Zones.ListRecords () mockKey.accountID
        mockKey.zoneName ⟨⟨some 2, some 100⟩⟩ = (.error (Errorf "503"), ()) ∧
      (getAllRecords mockMaxCap 5 (mockService bareThenFailing) mockKey).1 = .panicked ∧
      (getAllRecords mockMaxCap 5 (mockService bareThenFailing) mockKey).2.fetches =
        [pageCall mockKey 1] := by
  refine ⟨rfl, ⟨rfl, rfl⟩, ?_, rfl, rfl, rfl, rfl, rfl, rfl, rfl, rfl⟩
  simp [morePages]

/-- C2, amended: on a cache miss, when the page fetches `1 .. j - 1` succeed
with `rs`, each carrying a pagination block that does not pass the stop
test, the first of them with a `total_entries` that `make` accepts as a
capacity, and fetch `j = rs.length + 1` fails with `e`, `getAllRecords`
returns exactly `e` and no snapshot, has made exactly `j` page fetches, and
leaves the cache as it was, with no entry for the key. -/
theorem getAllRecords_fetch_error (maxCap fuel : Nat) (s : cachedRecordsService σ)
    (key : zoneCacheKey) (rs : List ZoneRecordsResponse) (e : GoError) (r1 r2 : σ)
    (hmiss : s.cache.Load key = none)
    (hserves : Serves s.client.Zones key s.remote 1 rs r1)
    (hmore : ∀ r ∈ rs, morePages r)
    (halloc : ∀ r, rs.head? = some r → allocatable maxCap r)
    (herr : s.client.Zones.ListRecords r1 key.accountID key.zoneName
      ⟨⟨some (rs.length + 1), some 100⟩⟩ = (.error e, r2))
    (hfuel : rs.length + 1 ≤ fuel) :
    getAllRecords maxCap fuel s key =
        (.returned (.error e),
          ⟨s.client, s.cache, r2, s.fetches ++ pageCalls key (rs.length + 1)⟩) ∧
      (getAllRecords maxCap fuel s key).2.cache.Load key = none := by
  have herr2 : s.client.Zones.ListRecords r1 key.accountID key.zoneName
      ⟨⟨some (1 + rs.length), some 100⟩⟩ = (.error e, r2) := by
    rw [Nat.add_comm]; exact herr
  have hstart : ∀ resp, (s.client.Zones.ListRecords s.remote key.accountID key.zoneName
      ⟨⟨some 1, some 100⟩⟩).1 = .ok resp → allocatable maxCap resp := by
    intro resp hresp
    cases rs with
    | nil =>
      simp only [Serves] at hserves
      subst hserves
      simp only [List.length_nil, Nat.zero_add] at herr
      rw [herr] at hresp
      simp at hresp
    | cons r rs =>
      simp only [Serves] at hserves
      rw [hserves.1] at hresp
      exact halloc resp (by simp only [Except.ok.injEq] at hresp; rw [hresp]; rfl)
  have hrun : getAllRecords maxCap fuel s key =
      (.returned (.error e),
        ⟨s.client, s.cache, r2, s.fetches ++ pageCalls key (rs.length + 1)⟩) := by
    rw [getAllRecords_miss maxCap fuel s key hmiss, loop_start maxCap key fuel 1 s hstart,
      loop_of_error maxCap key e rs fuel 1 (some []) s r1 r2 hserves hmore (fun _ => by simp)
        herr2 hfuel, pageCalls_eq]
  exact ⟨hrun, by rw [hrun]; exact hmiss⟩

/-- An error on page 2 of 3 is returned as is after two page fetches, and
the key stays unset. -/
theorem getAllRecords_fetch_error_witness :
    (mockService failingPage).cache.Load mockKey = none ∧
      Serves (mockService failingPage).client.Zones mockKey (mockService failingPage).remote 1
        [mockPage 1] () ∧
      (∀ r ∈ [mockPage 1], morePages r) ∧
      (∀ r, [mockPage 1].head? = some r → allocatable mockMaxCap r) ∧
      (mockService failingPage).client.Zones.ListRecords () mockKey.accountID mockKey.zoneName
        ⟨⟨some ([mockPage 1].length + 1), some 100⟩⟩ = (.error (Errorf "503"), ()) ∧
      [mockPage 1].length + 1 ≤ 5 ∧
      (getAllRecords mockMaxCap 5 (mockService failingPage) mockKey).1 =
        .returned (.error (Errorf "503")) ∧
      (getAllRecords mockMaxCap 5 (mockService failingPage) mockKey).2.fetches =
        [pageCall mockKey 1, pageCall mockKey 2] ∧
      (getAllRecords mockMaxCap 5 (mockService failingPage) mockKey).2.cache.Load mockKey =
        none := by
  have hmiss : (mockService failingPage).cache.Load mockKey = none := rfl
  have hserves : Serves (mockService failingPage).client.Zones mockKey
      (mockService failingPage).remote 1 [mockPage 1] () := ⟨rfl, rfl⟩
  have hmore : ∀ r ∈ [mockPage 1], morePages r := by simp [morePages, mockPage]
  have halloc : ∀ r, [mockPage 1].head? = some r → allocatable mockMaxCap r := by
    intro r hr
    simp only [List.head?_cons, Option.some.injEq] at hr
    rw [← hr]
    simp [allocatable, mockPage, mockMaxCap]
  have herr : (mockService failingPage).client.Zones.ListRecords () mockKey.accountID
      mockKey.zoneName ⟨⟨some ([mockPage 1].length + 1), some 100⟩⟩
      = (.error (Errorf "503"), ()) := rfl
  have hfuel : [mockPage 1].length + 1 ≤ 5 := by decide
  have h := getAllRecords_fetch_error mockMaxCap 5 (mockService failingPage) mockKey
    [mockPage 1] (Errorf "503") () () hmiss hserves hmore halloc herr hfuel
  refine ⟨hmiss, hserves, hmore, halloc, herr, hfuel, ?_, ?_, h.2⟩
  · rw [h.1]
  · rw [h.1]; rfl

/-! ## Reads -/

/-- C3: while the cache holds a snapshot `v` for the key, any number of
consecutive `GetRecord` calls for that key (one per id in `ids`) leaves the
whole service state as it was (so no page fetch is made and the cache is
unchanged), and every call answers with the scan of the cached `v`. -/
theorem GetRecord_cached_no_fetch (tables : Nat → Bool) (maxCap fuel : Nat)
    (s : cachedRecordsService σ) (accountID zoneName : GoString) (v : List ZoneRecord)
    (ids : List Int) (hhit : s.cache.Load ⟨accountID, zoneName⟩ = some v) :
    GetRecord_seq tables maxCap fuel accountID zoneName s ids =
      (ids.map (fun recordID => .returned (GetRecord_scan recordID v)), s) := by
  induction ids with
  | nil => rfl
  | cons recordID ids ih =>
    have h1 : GetRecord tables maxCap fuel s accountID zoneName recordID =
        (.returned (GetRecord_scan recordID v), s) := by
      rw [GetRecord_eq, getAllRecords_hit maxCap fuel s ⟨accountID, zoneName⟩ v hhit]
    rw [GetRecord_seq, h1]
    simp only [ih, List.map_cons]

/-- Three reads on a warm cache: two hits in snapshot order and a miss of the
id, no page fetch, even without fuel for a single loop iteration and with a
runtime that allocates nothing. -/
theorem GetRecord_cached_no_fetch_witness :
    warmService.cache.Load ⟨ascii "1", ascii "a.io"⟩ = some (mockRecords 7 2) ∧
      GetRecord_seq (fun _ => true) 0 0 (ascii "1") (ascii "a.io") warmService [8, 7, 9] =
        ([.returned (.ok ⟨8, [], []⟩), .returned (.ok ⟨7, [], []⟩),
          .returned (.error (Errorf "404"))], warmService) ∧
      warmService.fetches = [] := by
  have hhit : warmService.cache.Load ⟨ascii "1", ascii "a.io"⟩ = some (mockRecords 7 2) := by
    decide
  refine ⟨hhit, ?_, rfl⟩
  rw [GetRecord_cached_no_fetch (fun _ => true) 0 0 warmService (ascii "1") (ascii "a.io")
    (mockRecords 7 2) [8, 7, 9] hhit]
  rfl

/-- C5: once the snapshot `records` has been obtained (fetched or cached),
`GetRecord` returns the `404` error exactly when no item of the snapshot has
the requested id, and otherwise returns, without error, the first item in
snapshot order with that id; on the empty snapshot every id gives `404`. -/
theorem GetRecord_not_found_iff (tables : Nat → Bool) (maxCap fuel : Nat)
    (s : cachedRecordsService σ) (accountID zoneName : GoString) (recordID : Int)
    (records : List ZoneRecord)
    (hsnap : (getAllRecords maxCap fuel s ⟨accountID, zoneName⟩).1 = .returned (.ok records)) :
    ((GetRecord tables maxCap fuel s accountID zoneName recordID).1 =
          .returned (.error (Errorf "404")) ↔
        ∀ r ∈ records, r.ID ≠ recordID) ∧
      ((∃ r ∈ records, r.ID = recordID) →
        ∃ pre r post, records = pre ++ r :: post ∧ r.ID = recordID ∧
          (∀ x ∈ pre, x.ID ≠ recordID) ∧
          (GetRecord tables maxCap fuel s accountID zoneName recordID).1 = .returned (.ok r)) ∧
      (records = [] →
        (GetRecord tables maxCap fuel s accountID zoneName recordID).1 =
          .returned (.error (Errorf "404"))) := by
  have hget : (GetRecord tables maxCap fuel s accountID zoneName recordID).1 =
      .returned (GetRecord_scan recordID records) := by
    rw [GetRecord_eq]
    rcases hrun : getAllRecords maxCap fuel s ⟨accountID, zoneName⟩ with ⟨(_ | _) | _ | _, s1⟩
    · rw [hrun] at hsnap; simp at hsnap
    · rw [hrun] at hsnap
      simp only [Run.returned.injEq, Except.ok.injEq] at hsnap
      rw [hsnap]
    · rw [hrun] at hsnap; simp at hsnap
    · rw [hrun] at hsnap; simp at hsnap
  refine ⟨?_, ?_, ?_⟩
  · rw [hget, ← scan_not_found_iff]
    simp
  · intro hex
    obtain ⟨pre, r, post, he, hid, hpre, hscan⟩ := scan_found recordID records hex
    exact ⟨pre, r, post, he, hid, hpre, by rw [hget, hscan]⟩
  · intro hnil
    rw [hget, hnil]
    rfl

/-- On the fetched three-page snapshot, id 238 is not found. -/
theorem GetRecord_not_found_iff_witness :
    (getAllRecords mockMaxCap 3 (mockService (fun page => .ok (mockPage page)))
        ⟨ascii "1", ascii "a.io"⟩).1 = .returned (.ok (mockRecords 1 237)) ∧
      ((GetRecord (fun _ => true) mockMaxCap 3 (mockService (fun page => .ok (mockPage page)))
          (ascii "1") (ascii "a.io") 238).1 = .returned (.error (Errorf "404")) ↔
        ∀ r ∈ mockRecords 1 237, r.ID ≠ 238) := by
  have hsnap : (getAllRecords mockMaxCap 3 (mockService (fun page => .ok (mockPage page)))
      ⟨ascii "1", ascii "a.io"⟩).1 = .returned (.ok (mockRecords 1 237)) := by
    rw [← mockRecords_237]
    rfl
  exact ⟨hsnap, (GetRecord_not_found_iff (fun _ => true) mockMaxCap 3
    (mockService (fun page => .ok (mockPage page))) (ascii "1") (ascii "a.io") 238
    (mockRecords 1 237) hsnap).1⟩

/-- A read on a cache miss, given fuel for at least one iteration, starts
with a fetch of page 1 of its own key. -/
theorem GetRecord_refetches (tables : Nat → Bool) (maxCap fuel : Nat)
    (s : cachedRecordsService σ) (accountID zoneName : GoString) (recordID : Int)
    (hmiss : s.cache.Load ⟨accountID, zoneName⟩ = none) :
    ∃ rest, (GetRecord tables maxCap (fuel + 1) s accountID zoneName recordID).2.fetches =
      s.fetches ++ pageCall ⟨accountID, zoneName⟩ 1 :: rest := by
  rw [GetRecord_fetches,
    getAllRecords_fetches_of_miss maxCap (fuel + 1) s ⟨accountID, zoneName⟩ hmiss]
  obtain ⟨n, _, hpos, hf, _, _⟩ :=
    loop_fetches maxCap ⟨accountID, zoneName⟩ (fuel + 1) 1 none s
  obtain ⟨m, rfl⟩ : ∃ m, n = m + 1 := ⟨n - 1, by have := hpos (by omega); omega⟩
  exact ⟨pageCallsFrom ⟨accountID, zoneName⟩ 2 m, by rw [hf]; rfl⟩

theorem clearRecordsCache_load (tables : Nat → Bool) (s : cachedRecordsService σ)
    (key : zoneCacheKey) : (clearRecordsCache tables s key).cache.Load key = none := by
  simp [clearRecordsCache, Forget, Cache.Delete, Cache.Load]

/-! ## Writes -/

/-- C4: after `CreateRecord`, `UpdateRecord` or `DeleteRecord`, whatever the
cache held before and whatever the remote write returned (the result is
handed back as the remote gave it, error included), the cache has no entry
for the targeted key, no page fetch was made by the write, and the next
`GetRecord` for that key begins with a fetch of page 1. -/
theorem writes_invalidate (tables : Nat → Bool) (maxCap : Nat) (s : cachedRecordsService σ)
    (accountID zoneName : GoString) (recordID : Int) (attrs : ZoneRecordAttributes)
    (fuel : Nat) (nextID : Int) :
    ((CreateRecord tables s accountID zoneName attrs).2.cache.Load ⟨accountID, zoneName⟩ = none ∧
        (CreateRecord tables s accountID zoneName attrs).1 =
          (s.client.Zones.CreateRecord s.remote accountID zoneName attrs).1 ∧
        (CreateRecord tables s accountID zoneName attrs).2.fetches = s.fetches ∧
        ∃ rest, (GetRecord tables maxCap (fuel + 1)
            (CreateRecord tables s accountID zoneName attrs).2
            accountID zoneName nextID).2.fetches =
          s.fetches ++ pageCall ⟨accountID, zoneName⟩ 1 :: rest) ∧
      ((UpdateRecord tables s accountID zoneName recordID attrs).2.cache.Load
          ⟨accountID, zoneName⟩ = none ∧
        (UpdateRecord tables s accountID zoneName recordID attrs).1 =
          (s.client.Zones.UpdateRecord s.remote accountID zoneName recordID attrs).1 ∧
        (UpdateRecord tables s accountID zoneName recordID attrs).2.fetches = s.fetches ∧
        ∃ rest, (GetRecord tables maxCap (fuel + 1)
            (UpdateRecord tables s accountID zoneName recordID attrs).2
            accountID zoneName nextID).2.fetches =
          s.fetches ++ pageCall ⟨accountID, zoneName⟩ 1 :: rest) ∧
      ((DeleteRecord tables s accountID zoneName recordID).2.cache.Load
          ⟨accountID, zoneName⟩ = none ∧
        (DeleteRecord tables s accountID zoneName recordID).1 =
          (s.client.Zones.DeleteRecord s.remote accountID zoneName recordID).1 ∧
        (DeleteRecord tables s accountID zoneName recordID).2.fetches = s.fetches ∧
        ∃ rest, (GetRecord tables maxCap (fuel + 1)
            (DeleteRecord tables s accountID zoneName recordID).2
            accountID zoneName nextID).2.fetches =
          s.fetches ++ pageCall ⟨accountID, zoneName⟩ 1 :: rest) := by
  have hc : (CreateRecord tables s accountID zoneName attrs).2.cache.Load
      ⟨accountID, zoneName⟩ = none := clearRecordsCache_load tables s ⟨accountID, zoneName⟩
  have hu : (UpdateRecord tables s accountID zoneName recordID attrs).2.cache.Load
      ⟨accountID, zoneName⟩ = none := clearRecordsCache_load tables s ⟨accountID, zoneName⟩
  have hd : (DeleteRecord tables s accountID zoneName recordID).2.cache.Load
      ⟨accountID, zoneName⟩ = none := clearRecordsCache_load tables s ⟨accountID, zoneName⟩
  exact ⟨⟨hc, rfl, rfl, GetRecord_refetches tables maxCap fuel _ accountID zoneName nextID hc⟩,
    ⟨hu, rfl, rfl, GetRecord_refetches tables maxCap fuel _ accountID zoneName nextID hu⟩,
    ⟨hd, rfl, rfl, GetRecord_refetches tables maxCap fuel _ accountID zoneName nextID hd⟩⟩

/-- A refused update on a warm cache: the error comes back as the remote
gave it, the entry is gone, and the next read starts again at page 1. -/
theorem writes_invalidate_witness :
    warmService.cache.Load mockKey = some (mockRecords 7 2) ∧
      (UpdateRecord (fun _ => true) warmService (ascii "1") (ascii "a.io") 7 ⟨[], []⟩).1 =
        .error (Errorf "read only") ∧
      (UpdateRecord (fun _ => true) warmService (ascii "1") (ascii "a.io") 7 ⟨[], []⟩).2.cache.Load
        mockKey = none ∧
      ∃ rest, (GetRecord (fun _ => true) mockMaxCap (2 + 1)
          (UpdateRecord (fun _ => true) warmService (ascii "1") (ascii "a.io") 7 ⟨[], []⟩).2
          (ascii "1") (ascii "a.io") 7).2.fetches =
        warmService.fetches ++ pageCall ⟨ascii "1", ascii "a.io"⟩ 1 :: rest := by
  have h := (writes_invalidate (fun _ => true) mockMaxCap warmService (ascii "1")
    (ascii "a.io") 7 ⟨[], []⟩ 2 7).2.1
  exact ⟨by decide, rfl, h.1, h.2.2.2⟩

/-! ## Single page, page numbers, empty snapshot -/

/-- C8, as stated, fails.  A first response that reports `total_pages = 1`
but `current_page = 0` does not pass the stop test: the loop goes on to page
2; with fuel for one iteration it is still running, with fuel for two it has
made two page fetches and returns the items of both responses.  And a first
response that reports `total_pages = 1`, `current_page = 1` and
`total_entries = -1` makes `make` panic: nothing is returned or cached. -/
theorem getAllRecords_single_page_counterexample :
    (mockService (fun page => .ok (lagPage page))).cache.Load mockKey = none ∧
      (mockService (fun page => .ok (lagPage page))).client.Zones.ListRecords ()
        mockKey.accountID mockKey.zoneName ⟨⟨some 1, some 100⟩⟩ = (.ok (lagPage 1), ()) ∧
      (lagPage 1).Pagination = some ⟨0, 100, 1, 2⟩ ∧
      (getAllRecords mockMaxCap 1 (mockService (fun page => .ok (lagPage page))) mockKey).1 =
        .running ∧
      (getAllRecords mockMaxCap 2 (mockService (fun page => .ok (lagPage page))) mockKey).1 =
        .returned (.ok ((lagPage 1).Data ++ (lagPage 2).Data)) ∧
      (getAllRecords mockMaxCap 2 (mockService (fun page => .ok (lagPage page)))
        mockKey).2.fetches = [pageCall mockKey 1, pageCall mockKey 2] ∧
      (mockService (fun _ => .ok negativeCountPage)).client.Zones.ListRecords ()
        mockKey.accountID mockKey.zoneName ⟨⟨some 1, some 100⟩⟩ =
          (.ok negativeCountPage, ()) ∧
      negativeCountPage.Pagination = some ⟨1, 100, 1, -1⟩ ∧
      (getAllRecords mockMaxCap 2 (mockService (fun _ => .ok negativeCountPage)) mockKey).1 =
        .panicked ∧
      (getAllRecords mockMaxCap 2 (mockService (fun _ => .ok negativeCountPage))
        mockKey).2.cache.Load mockKey = none :=
  ⟨rfl, rfl, rfl, rfl, rfl, rfl, rfl, rfl, rfl, rfl⟩

/-- C8, amended: on a cache miss, when the first page fetch succeeds with a
response whose pagination block reports `total_pages` equal to 0 or 1, a
`current_page` not below `total_pages`, and a `total_entries` that `make`
accepts as a capacity, `getAllRecords` (given fuel for one iteration or
more) makes exactly one page fetch and returns and caches exactly the items
of that response.  (The stop test alone decides; the bound on `total_pages`
is kept from the claim.) -/
theorem getAllRecords_single_page (maxCap fuel : Nat) (s : cachedRecordsService σ)
    (key : zoneCacheKey) (resp : ZoneRecordsResponse) (p : Pagination) (r1 : σ)
    (hmiss : s.cache.Load key = none)
    (hfirst : s.client.Zones.ListRecords s.remote key.accountID key.zoneName
      ⟨⟨some 1, some 100⟩⟩ = (.ok resp, r1))
    (hpagination : resp.Pagination = some p)
    (hpages : p.TotalPages = 0 ∨ p.TotalPages = 1)
    (hcurrent : p.CurrentPage ≥ p.TotalPages)
    (hentries : 0 ≤ p.TotalEntries ∧ p.TotalEntries ≤ (maxCap : Int)) :
    getAllRecords maxCap (fuel + 1) s key =
      (.returned (.ok resp.Data),
        ⟨s.client, s.cache.Store key resp.Data, r1, s.fetches ++ [pageCall key 1]⟩) := by
  have _ := hpages
  have hlast : lastPage resp := (lastPage_iff resp).2 ⟨p, hpagination, hcurrent⟩
  have halloc : allocatable maxCap resp := by
    unfold allocatable
    rw [hpagination]
    exact hentries
  have hserves : Serves s.client.Zones key s.remote 1 ([] ++ [resp]) r1 := by
    simp [Serves, hfirst]
  have hstart : ∀ x, (s.client.Zones.ListRecords s.remote key.accountID key.zoneName
      ⟨⟨some 1, some 100⟩⟩).1 = .ok x → allocatable maxCap x := by
    intro x hx
    rw [hfirst] at hx
    simp only [Except.ok.injEq] at hx
    rw [← hx]
    exact halloc
  rw [getAllRecords_miss maxCap (fuel + 1) s key hmiss,
    loop_start maxCap key (fuel + 1) 1 s hstart,
    loop_of_serves maxCap key resp [] (fuel + 1) 1 [] s r1 hserves (by simp) hlast (by simp)]
  simp [allItems, pageCallsFrom]

/-- A zone whose only page reports `total_pages = 0` is read with one fetch. -/
theorem getAllRecords_single_page_witness :
    (mockService (fun _ => .ok emptyPage)).cache.Load mockKey = none ∧
      (mockService (fun _ => .ok emptyPage)).client.Zones.ListRecords
        (mockService (fun _ => .ok emptyPage)).remote mockKey.accountID mockKey.zoneName
        ⟨⟨some 1, some 100⟩⟩ = (.ok emptyPage, ()) ∧
      emptyPage.Pagination = some ⟨1, 100, 0, 0⟩ ∧
      ((0 : Int) = 0 ∨ (0 : Int) = 1) ∧ (1 : Int) ≥ 0 ∧
      ((0 : Int) ≤ 0 ∧ (0 : Int) ≤ (mockMaxCap : Int)) ∧
      (getAllRecords mockMaxCap (0 + 1) (mockService (fun _ => .ok emptyPage)) mockKey).1 =
        .returned (.ok []) ∧
      (getAllRecords mockMaxCap (0 + 1) (mockService (fun _ => .ok emptyPage))
        mockKey).2.fetches = [pageCall mockKey 1] := by
  have hpages : (0 : Int) = 0 ∨ (0 : Int) = 1 := Or.inl rfl
  have hcurrent : (1 : Int) ≥ 0 := by decide
  have hentries : (0 : Int) ≤ 0 ∧ (0 : Int) ≤ (mockMaxCap : Int) := by
    simp [mockMaxCap]
  have h := getAllRecords_single_page mockMaxCap 0 (mockService (fun _ => .ok emptyPage))
    mockKey emptyPage ⟨1, 100, 0, 0⟩ () rfl rfl rfl hpages hcurrent hentries
  exact ⟨rfl, rfl, rfl, hpages, hcurrent, hentries, by rw [h]; rfl, by rw [h]; rfl⟩

/-- C9: in every run of `getAllRecords`, however it ends (a result, an
error, a panic, or fuel used up) and whatever the remote answers, the page
fetches it makes are, for some `n`, exactly the calls for pages
`1, 2, ..., n` in this order, each for the account and zone of the key and
with page size 100: the `i`-th call asks for page `i`. -/
theorem getAllRecords_page_numbers (maxCap fuel : Nat) (s : cachedRecordsService σ)
    (key : zoneCacheKey) :
    ∃ n, n ≤ fuel ∧
      (getAllRecords maxCap fuel s key).2.fetches =
        s.fetches ++ (List.range n).map (fun i =>
          (⟨key.accountID, key.zoneName, ⟨⟨some (i + 1), some 100⟩⟩⟩ : ListRecordsCall)) := by
  cases hload : s.cache.Load key with
  | some v =>
    exact ⟨0, Nat.zero_le _, by rw [getAllRecords_hit maxCap fuel s key v hload]; simp⟩
  | none =>
    obtain ⟨n, hn, _, hf, _, _⟩ := loop_fetches maxCap key fuel 1 none s
    refine ⟨n, hn, ?_⟩
    rw [getAllRecords_fetches_of_miss maxCap fuel s key hload, hf, ← pageCalls_eq]
    rfl

/-- On the three-page zone a run cut short after two iterations has asked
for pages 1 and 2 with page size 100. -/
theorem getAllRecords_page_numbers_witness :
    (∃ n, n ≤ 2 ∧
      (getAllRecords mockMaxCap 2 (mockService (fun page => .ok (mockPage page)))
          mockKey).2.fetches =
        (mockService (fun page => .ok (mockPage page))).fetches ++
          (List.range n).map (fun i =>
            (⟨mockKey.accountID, mockKey.zoneName, ⟨⟨some (i + 1), some 100⟩⟩⟩ :
              ListRecordsCall))) ∧
      (getAllRecords mockMaxCap 2 (mockService (fun page => .ok (mockPage page)))
          mockKey).2.fetches =
        [⟨ascii "1", ascii "a.io", ⟨⟨some 1, some 100⟩⟩⟩,
          ⟨ascii "1", ascii "a.io", ⟨⟨some 2, some 100⟩⟩⟩] :=
  ⟨getAllRecords_page_numbers mockMaxCap 2 (mockService (fun page => .ok (mockPage page)))
    mockKey, rfl⟩

/-- C10: when a run of `getAllRecords` ends with the empty snapshot, the
cache holds an entry (the empty snapshot) for the key, and any following
`GetRecord` for that key leaves the state as it is (no page fetch) and
returns the `404` error. -/
theorem empty_snapshot_is_cached (tables : Nat → Bool) (maxCap fuel : Nat)
    (s s1 : cachedRecordsService σ) (accountID zoneName : GoString)
    (hrun : getAllRecords maxCap fuel s ⟨accountID, zoneName⟩ = (.returned (.ok []), s1)) :
    s1.cache.Load ⟨accountID, zoneName⟩ = some [] ∧
      ∀ (maxCap2 fuel2 : Nat) (recordID : Int),
        GetRecord tables maxCap2 fuel2 s1 accountID zoneName recordID =
          (.returned (.error (Errorf "404")), s1) := by
  have hload : s1.cache.Load ⟨accountID, zoneName⟩ = some [] := by
    cases h : s.cache.Load ⟨accountID, zoneName⟩ with
    | some v =>
      rw [getAllRecords_hit maxCap fuel s _ v h] at hrun
      simp only [Prod.mk.injEq, Run.returned.injEq, Except.ok.injEq] at hrun
      rw [← hrun.2, h, hrun.1]
    | none =>
      rw [getAllRecords_miss maxCap fuel s _ h] at hrun
      rcases hl : getAllRecords_loop maxCap ⟨accountID, zoneName⟩ fuel 1 none s with
        ⟨(_ | v) | _ | _, s2⟩
      · rw [hl] at hrun; simp at hrun
      · rw [hl] at hrun
        simp only [Prod.mk.injEq, Run.returned.injEq, Except.ok.injEq] at hrun
        rw [← hrun.2, ← hrun.1]
        simp [Cache.Load, Cache.Store]
      · rw [hl] at hrun; simp at hrun
      · rw [hl] at hrun; simp at hrun
  refine ⟨hload, fun maxCap2 fuel2 recordID => ?_⟩
  rw [GetRecord_eq, getAllRecords_hit maxCap2 fuel2 s1 _ [] hload]
  rfl

/-- A zone without records: the first read fetches one empty page and caches
it; the next read makes no fetch and answers `404`. -/
theorem empty_snapshot_is_cached_witness :
    getAllRecords mockMaxCap 1 (mockService (fun _ => .ok emptyPage))
        ⟨ascii "1", ascii "a.io"⟩ =
      (.returned (.ok []), (getAllRecords mockMaxCap 1 (mockService (fun _ => .ok emptyPage))
        ⟨ascii "1", ascii "a.io"⟩).2) ∧
      (getAllRecords mockMaxCap 1 (mockService (fun _ => .ok emptyPage))
          ⟨ascii "1", ascii "a.io"⟩).2.cache.Load ⟨ascii "1", ascii "a.io"⟩ = some [] ∧
      (GetRecord (fun _ => true) mockMaxCap 0
          (getAllRecords mockMaxCap 1 (mockService (fun _ => .ok emptyPage))
            ⟨ascii "1", ascii "a.io"⟩).2 (ascii "1") (ascii "a.io") 5).1 =
        .returned (.error (Errorf "404")) ∧
      (GetRecord (fun _ => true) mockMaxCap 0
          (getAllRecords mockMaxCap 1 (mockService (fun _ => .ok emptyPage))
            ⟨ascii "1", ascii "a.io"⟩).2 (ascii "1") (ascii "a.io") 5).2.fetches =
        [pageCall mockKey 1] := by
  have hrun : getAllRecords mockMaxCap 1 (mockService (fun _ => .ok emptyPage))
      ⟨ascii "1", ascii "a.io"⟩ =
      (.returned (.ok []), (getAllRecords mockMaxCap 1 (mockService (fun _ => .ok emptyPage))
        ⟨ascii "1", ascii "a.io"⟩).2) := rfl
  have h := empty_snapshot_is_cached (fun _ => true) mockMaxCap 1
    (mockService (fun _ => .ok emptyPage)) _ (ascii "1") (ascii "a.io") hrun
  refine ⟨hrun, h.1, ?_, ?_⟩
  · rw [h.2 mockMaxCap 0 5]
  · rw [h.2 mockMaxCap 0 5]; rfl

end Service

end Dnsimple
